/-
  Verification of the jmap-python request/response execution engine and
  schema-driven marshaling system, as a shallow embedding in Lean 4.

  The embedding follows the source files:
    - jmap/protocol/executor.py   (Executor, resolve_reference)
    - jmap/protocol/errors.py     (error taxonomy)
    - jmap/protocol/models.py     (JMapRequest.from_json, parse_methods, ResultReference)
    - jmap/modules/core.py        (JmapBaseModule.execute)
    - jmap/models/marshal.py      (marshallable, make_marshall_func, PolyField)
    - jmap/attrs/utils.py         (get_set_attrs)

  Python values appearing in requests and responses are modelled by the
  `Json` inductive; Python dicts are modelled as insertion-ordered
  association lists.  Python exceptions are modelled by the `PyErr`
  inductive, and fallible Python code returns `Except PyErr _`.
-/
import Mathlib

set_option maxHeartbeats 1000000

namespace JmapPython

/-- A JSON-compatible Python value (the payloads moved around by the
executor and the marshaling engine).  Numbers are modelled as integers;
no claim in this development depends on floating point. -/
inductive Json where
  | null : Json
  | bool (b : Bool) : Json
  | num (n : Int) : Json
  | str (s : String) : Json
  | arr (xs : List Json) : Json
  | obj (kvs : List (String × Json)) : Json

mutual

/-- Boolean structural equality on `Json` values (written as a mutual
recursion through the two nested list positions, which no deriving
handler covers). -/
def Json.beq : Json → Json → Bool
  | .arr u, .arr w => Json.beqElems u w
  | .obj u, .obj w => Json.beqPairs u w
  | .str p, .str q => p == q
  | .num p, .num q => p == q
  | .bool p, .bool q => p == q
  | .null, .null => true
  | _, _ => false

/-- Elementwise equality of the contents of two JSON arrays. -/
def Json.beqElems : List Json → List Json → Bool
  | u :: us, w :: ws => Json.beq u w && Json.beqElems us ws
  | [], [] => true
  | _, _ => false

/-- Pairwise equality of the entries of two JSON objects. -/
def Json.beqPairs : List (String × Json) → List (String × Json) → Bool
  | (ka, va) :: us, (kb, vb) :: ws =>
      ka == kb && Json.beq va vb && Json.beqPairs us ws
  | [], [] => true
  | _, _ => false

end

theorem Json.beqElems_eq (xs ys : List Json) :
    Json.beqElems xs ys = Json.beq (.arr xs) (.arr ys) := rfl

theorem Json.beqPairs_eq (xs ys : List (String × Json)) :
    Json.beqPairs xs ys = Json.beq (.obj xs) (.obj ys) := rfl

/-- A structural-recursion skeleton over `Json`, used only to obtain an
induction principle covering the nested lists. -/
def Json.depth : Json → Nat
  | .null => 0
  | .bool _ => 0
  | .num _ => 0
  | .str _ => 0
  | .arr [] => 0
  | .arr (x :: xs) => x.depth + (Json.arr xs).depth + 1
  | .obj [] => 0
  | .obj ((_, v) :: xs) => v.depth + (Json.obj xs).depth + 1

theorem Json.eq_of_beq : ∀ a b : Json, Json.beq a b = true → a = b := by
  intro a
  induction a using Json.depth.induct with
  | case1 => intro b h; cases b <;> simp_all [Json.beq]
  | case2 x => intro b h; cases b <;> simp_all [Json.beq]
  | case3 x => intro b h; cases b <;> simp_all [Json.beq]
  | case4 x => intro b h; cases b <;> simp_all [Json.beq]
  | case5 =>
      intro b h
      cases b with
      | arr ys => cases ys <;> simp_all [Json.beq, Json.beqElems]
      | null => simp [Json.beq] at h
      | bool c => simp [Json.beq] at h
      | num c => simp [Json.beq] at h
      | str c => simp [Json.beq] at h
      | obj kvs => simp [Json.beq] at h
  | case6 x xs ih1 ih2 =>
      intro b h
      cases b with
      | arr ys =>
          cases ys with
          | nil => simp [Json.beq, Json.beqElems] at h
          | cons y ys =>
              simp only [Json.beq, Json.beqElems, Bool.and_eq_true] at h
              have h1 := ih1 y h.1
              have h2 := ih2 (.arr ys) h.2
              injection h2 with h3
              rw [h1, h3]
      | null => simp [Json.beq] at h
      | bool c => simp [Json.beq] at h
      | num c => simp [Json.beq] at h
      | str c => simp [Json.beq] at h
      | obj kvs => simp [Json.beq] at h
  | case7 =>
      intro b h
      cases b with
      | obj ys => cases ys <;> simp_all [Json.beq, Json.beqPairs]
      | null => simp [Json.beq] at h
      | bool c => simp [Json.beq] at h
      | num c => simp [Json.beq] at h
      | str c => simp [Json.beq] at h
      | arr xs => simp [Json.beq] at h
  | case8 k v xs ih1 ih2 =>
      intro b h
      cases b with
      | obj ys =>
          cases ys with
          | nil => simp [Json.beq, Json.beqPairs] at h
          | cons y ys =>
              obtain ⟨k₂, v₂⟩ := y
              simp only [Json.beq, Json.beqPairs, Bool.and_eq_true, beq_iff_eq] at h
              have h1 := ih1 v₂ h.1.2
              have h2 := ih2 (.obj ys) h.2
              injection h2 with h3
              rw [h1, h3, h.1.1]
      | null => simp [Json.beq] at h
      | bool c => simp [Json.beq] at h
      | num c => simp [Json.beq] at h
      | str c => simp [Json.beq] at h
      | arr zs => simp [Json.beq] at h

theorem Json.beq_refl (a : Json) : Json.beq a a = true := by
  induction a using Json.depth.induct <;>
    simp_all [Json.beq, Json.beqElems, Json.beqPairs, ← Json.beqElems_eq,
      ← Json.beqPairs_eq]

instance : DecidableEq Json := fun a b =>
  if h : Json.beq a b = true then .isTrue (Json.eq_of_beq a b h)
  else .isFalse (fun he => h (he ▸ Json.beq_refl a))

mutual

/-- Python `repr()` for the values above (used by `'{}'.format(...)` in
error messages; inside containers Python `str` falls back to `repr`,
which quotes strings). -/
def Json.pyRepr : Json → String
  | .null => "None"
  | .bool b => if b then "True" else "False"
  | .num n => toString n
  | .str s => "'" ++ s ++ "'"
  | .arr xs => "[" ++ Json.pyReprList xs ++ "]"
  | .obj kvs => "\x7b" ++ Json.pyReprObj kvs ++ "\x7d"

/-- Comma-joined `repr`s of the elements of a Python list. -/
def Json.pyReprList : List Json → String
  | [] => ""
  | [x] => Json.pyRepr x
  | x :: xs => Json.pyRepr x ++ ", " ++ Json.pyReprList xs

/-- Comma-joined `'key': repr(value)` pairs of a Python dict. -/
def Json.pyReprObj : List (String × Json) → String
  | [] => ""
  | [(k, v)] => "'" ++ k ++ "': " ++ Json.pyRepr v
  | (k, v) :: xs => "'" ++ k ++ "': " ++ Json.pyRepr v ++ ", " ++ Json.pyReprObj xs

end

/-- Python `str()` at top level (no quotes around a bare string). -/
def Json.pyStr : Json → String
  | .str s => s
  | j => j.pyRepr

/-- Whether a value may be used as a Python dict key (lists and dicts
are unhashable). -/
def Json.hashable : Json → Bool
  | .arr _ => false
  | .obj _ => false
  | _ => true

/-! ### Python dicts as insertion-ordered association lists -/

/-- `m[k]` / `m.get(k)`: first binding of `k`. -/
def alookup [DecidableEq κ] : List (κ × α) → κ → Option α
  | [], _ => none
  | (k, v) :: rest, key => if k = key then some v else alookup rest key

/-- `k in m`. -/
def acontains [DecidableEq κ] (m : List (κ × α)) (k : κ) : Bool :=
  (alookup m k).isSome

/-- `m[k] = v`: update in place if the key is present (Python dicts keep
the original insertion position), otherwise append at the end. -/
def ainsert [DecidableEq κ] : List (κ × α) → κ → α → List (κ × α)
  | [], key, v => [(key, v)]
  | (k, v₀) :: rest, key, v =>
      if k = key then (k, v) :: rest else (k, v₀) :: ainsert rest key v

/-- `del m[k]`. -/
def aerase [DecidableEq κ] : List (κ × α) → κ → List (κ × α)
  | [], _ => []
  | (k, v) :: rest, key => if k = key then rest else (k, v) :: aerase rest key

/-- `list(m.keys())`. -/
def akeys (m : List (κ × α)) : List κ := m.map (fun kv => kv.1)

/-! ### Python exceptions (jmap/protocol/errors.py plus builtins) -/

/-- The exceptions the embedded code can raise.  `methodError` covers all
`JMapMethodError` subclasses (identified by their `typename` and carrying
the optional `description`); `requestError` covers `JMapRequestError`
subclasses; `methodNotFound` is the executor's local `MethodNotFound`
class, which derives from `JMapError` but *not* from `JMapMethodError`.
The remaining constructors model Python builtin exceptions. -/
inductive PyErr where
  | methodError (typename : String) (description : Option String)
  | requestError (typename : String) (detail : Option String)
  | methodNotFound (name : Json)
  | notImplemented
  | validationError (msg : String)
  | typeError (msg : String)
  | valueError (msg : String)
  | keyError (key : String)
  | attributeError (msg : String)
  deriving DecidableEq

/-- `JMapMethodError.to_json` (errors.py lines 16-22): a dict with the
`type`, and the `description` only when it is truthy (a present but
empty description string is falsy in Python and is omitted). -/
def methodErrorToJson (typename : String) (description : Option String) : Json :=
  Json.obj ([("type", Json.str typename)] ++
    (match description with
     | some d => if d = "" then [] else [("description", Json.str d)]
     | none => []))

instance [DecidableEq ε] [DecidableEq α] : DecidableEq (Except ε α) := fun a b =>
  match a, b with
  | .ok x, .ok y =>
      if h : x = y then .isTrue (by rw [h]) else .isFalse (by simp [h])
  | .error x, .error y =>
      if h : x = y then .isTrue (by rw [h]) else .isFalse (by simp [h])
  | .ok _, .error _ => .isFalse (by simp)
  | .error _, .ok _ => .isFalse (by simp)

/-- A Python value held in a response: either a plain JSON-like value
(e.g. the dict produced by `to_json()` on an error, or a raw result) or
a model object whose `to_client()` serialization is `client`.  Plain
values have no `to_client` method. -/
inductive PyVal where
  | js (j : Json)
  | mdl (client : Json)
  deriving DecidableEq

/-- `response.to_client()`: raises `AttributeError` on a plain value. -/
def PyVal.to_client : PyVal → Except PyErr Json
  | .js _ => .error (.attributeError "to_client")
  | .mdl c => .ok c

/-! ### The marshaling engine (jmap/models/marshal.py)

A compiled schema view is a list of `FieldSpec`s, one per `attr` field,
in declaration order.  `ser`/`deser` stand for the per-field marshmallow
field conversion (`_serialize` / `_deserialize`); the theorems quantify
over them. -/

structure FieldSpec where
  name : String
  data_key : String
  server_set : Bool
  required : Bool
  ser : Json → Json
  deser : Json → Except String Json

/-- Modelled from the spec: the record-instance representation.  The
custom `attrs` copy (`jmap/models/attrs.py`, imported by
`jmap/models/marshal.py`) is not in the tree; per the spec (§3 "Record
instance") and the `jmap/models/__init__.py` docstring, an instance
tracks exactly the fields explicitly assigned at construction or by
later mutation, and `get_set_attrs` (jmap/attrs/utils.py) returns
exactly those. -/
structure Record where
  setAttrs : List (String × Json)
  deriving DecidableEq

/-- `get_set_attrs` (jmap/attrs/utils.py lines 15-38). -/
def get_set_attrs (r : Record) : List (String × Json) := r.setAttrs

/-- `marshallable` (marshal.py lines 291-300): the client view drops the
`server_set` fields; the server view keeps all fields. -/
def clientFields (fs : List FieldSpec) : List FieldSpec :=
  fs.filter (fun f => !f.server_set)

/-- `schema.dump` on the explicitly-set attributes (the body of the
function returned by `make_marshall_func`, marshal.py lines 252-259):
marshmallow emits, in declared-field order, `data_key ↦ ser value` for
each field found on the dumped object and silently skips fields whose
attribute is missing. -/
def schemaDump (fields : List FieldSpec) (attrs : List (String × Json)) :
    List (String × Json) :=
  fields.foldl (fun acc f =>
    match alookup attrs f.name with
    | none => acc
    | some v => acc ++ [(f.data_key, f.ser v)]) []

/-- `schema.load` (the body of `unmarshall_func`, marshal.py lines
244-249): marshmallow 3 with the default `unknown=RAISE` policy rejects
any input key not claimed by a declared field, requires fields without a
default, and runs each present field's deserializer. -/
def schemaLoad (fields : List FieldSpec) (input : List (String × Json)) :
    Except String (List (String × Json)) :=
  if input.any (fun kv => !(fields.any (fun f => f.data_key == kv.1))) then
    .error "Unknown field."
  else
    fields.foldlM (fun acc f =>
      match alookup input f.data_key with
      | none =>
          if f.required then .error "Missing data for required field."
          else .ok acc
      | some v => (f.deser v).map (fun x => acc ++ [(f.name, x)])) []

/-- `from_client` (marshal.py line 340): unmarshal with the client view;
the `@post_load` hook `make_object` produces a record whose set
attributes are exactly the loaded fields. -/
def Record.from_client (fs : List FieldSpec) (input : List (String × Json)) :
    Except String Record :=
  (schemaLoad (clientFields fs) input).map Record.mk

/-- `from_server` (marshal.py line 338): unmarshal with the server view. -/
def Record.from_server (fs : List FieldSpec) (input : List (String × Json)) :
    Except String Record :=
  (schemaLoad fs input).map Record.mk

/-- `to_client` (marshal.py line 339): marshal with the server view
(`use_server_fields=True`). -/
def Record.to_client (fs : List FieldSpec) (r : Record) : List (String × Json) :=
  schemaDump fs (get_set_attrs r)

/-- `to_server` (marshal.py line 337): marshal with the client view
(`use_server_fields=False`). -/
def Record.to_server (fs : List FieldSpec) (r : Record) : List (String × Json) :=
  schemaDump (clientFields fs) (get_set_attrs r)

/-! ### PolyField (marshal.py lines 529-643)

A union candidate is either a primitive marshmallow field (`isInst` is
Python's `isinstance` against the primitive type, `deser` the field's
`_deserialize`) or a marshallable model class (`willHandle` models an
optional `will_handle` classmethod, `fieldNames` the declared field
names of the model's schema, `load` the schema's `load`). -/

structure ModelCandidate where
  willHandle : Option (Json → Bool)
  fieldNames : List String
  load : Json → Except String Json

inductive UnionCandidate where
  | prim (isInst : Json → Bool) (deser : Json → Except String Json)
  | model (m : ModelCandidate)

/-- The model classes among the union's candidate types (the schemas
gathered at marshal.py lines 613-617). -/
def modelCands (cands : List UnionCandidate) : List ModelCandidate :=
  cands.filterMap (fun c =>
    match c with
    | .model m => some m
    | .prim _ _ => none)

/-- The `will_handle` loop (marshal.py lines 591-599): every candidate
with a `will_handle` that claims the value loads it and appends the
result; note that this loop does not set the `found` flag. -/
def whPass (cands : List UnionCandidate) (v : Json) : Except String (List Json) :=
  cands.foldlM (fun acc c =>
    match c with
    | .model m =>
        match m.willHandle with
        | some f => if f v then (m.load v).map (fun d => acc ++ [d]) else .ok acc
        | none => .ok acc
    | .prim _ _ => .ok acc) []

/-- The primitive loop (marshal.py lines 602-607): the first candidate
whose type the raw value is an instance of; a raw JSON value is never an
instance of a model class. -/
def primFirst (cands : List UnionCandidate) (v : Json) :
    Option (Json → Except String Json) :=
  cands.findSome? (fun c =>
    match c with
    | .prim isInst deser => if isInst v then some deser else none
    | .model _ => none)

/-- How many candidate schemas declare the key `k` (the `Counter` over
the per-schema key sets, marshal.py lines 620-622). -/
def countSchemasWithKey (ms : List ModelCandidate) (k : String) : Nat :=
  (ms.filter (fun m => m.fieldNames.contains k)).length

/-- The unique-key disambiguation (marshal.py lines 624-635): the first
schema one of whose declared keys is unique among all candidate schemas
and appears in the object. -/
def schemaKeyMatch (ms : List ModelCandidate) (objKeys : List String) :
    Option ModelCandidate :=
  ms.find? (fun m => m.fieldNames.any (fun k =>
    countSchemasWithKey ms k == 1 && objKeys.contains k))

/-- `PolyField._deserialize` for a single value (`many=False`, marshal.py
lines 578-643): run the `will_handle` loop, then the primitive loop,
then — for a dict — the unique-key disambiguation; if none sets the
`found` flag, fail naming the position and the value; otherwise return
`results[0]`. -/
def polyDeserializeSingle (cands : List UnionCandidate) (attr : String)
    (v : Json) : Except String Json := do
  let wh ← whPass cands v
  match primFirst cands v with
  | some deser => do
      let d ← deser v
      pure ((wh ++ [d]).headD d)
  | none =>
      match v with
      | .obj kvs =>
          match schemaKeyMatch (modelCands cands) (kvs.map (fun kv => kv.1)) with
          | some m => do
              let d ← m.load v
              pure ((wh ++ [d]).headD d)
          | none =>
              .error ("Not one of the possible valid types for \"" ++ attr ++
                "\": " ++ (Json.obj kvs).pyStr)
      | _ =>
          .error ("Not one of the possible valid types for \"" ++ attr ++
            "\": " ++ v.pyStr)

/-! ### Helper lemmas about `schemaDump` -/

theorem schemaDump_go (fs : List FieldSpec) (attrs : List (String × Json))
    (acc : List (String × Json)) :
    fs.foldl (fun acc f =>
      match alookup attrs f.name with
      | none => acc
      | some v => acc ++ [(f.data_key, f.ser v)]) acc
    = acc ++ schemaDump fs attrs := by
  induction fs generalizing acc with
  | nil => simp [schemaDump]
  | cons f fs ih =>
      simp only [schemaDump, List.foldl_cons] at *
      cases hl : alookup attrs f.name <;> simp only [hl]
      · exact ih acc
      · rw [ih]
        conv_rhs => rw [ih]
        simp

theorem schemaDump_cons (f : FieldSpec) (fs : List FieldSpec)
    (attrs : List (String × Json)) :
    schemaDump (f :: fs) attrs =
      (match alookup attrs f.name with
       | none => []
       | some v => [(f.data_key, f.ser v)]) ++ schemaDump fs attrs := by
  simp only [schemaDump, List.foldl_cons]
  cases hl : alookup attrs f.name <;> simp only [hl] <;>
    rw [schemaDump_go] <;> simp [schemaDump]

theorem schemaDump_nil_attrs (fs : List FieldSpec) : schemaDump fs [] = [] := by
  induction fs with
  | nil => rfl
  | cons f fs ih => rw [schemaDump_cons]; simpa [alookup] using ih

theorem schemaDump_keys (fs : List FieldSpec) (attrs : List (String × Json)) :
    akeys (schemaDump fs attrs)
      = (fs.filter (fun f => acontains attrs f.name)).map (fun f => f.data_key) := by
  induction fs with
  | nil => rfl
  | cons f fs ih =>
      rw [schemaDump_cons]
      cases h : alookup attrs f.name <;>
        simp_all [akeys, acontains, List.filter_cons, h]

theorem alookup_eq_some_mem [DecidableEq κ] {m : List (κ × α)} {k : κ} {v : α}
    (h : alookup m k = some v) : (k, v) ∈ m := by
  induction m with
  | nil => simp [alookup] at h
  | cons kv rest ih =>
      obtain ⟨k₀, v₀⟩ := kv
      by_cases hk : k₀ = k
      · subst hk
        simp [alookup] at h
        subst h
        exact List.mem_cons_self _ _
      · simp only [alookup, if_neg hk] at h
        exact List.mem_cons_of_mem _ (ih h)

theorem acontains_iff [DecidableEq κ] {m : List (κ × α)} {k : κ} :
    acontains m k = true ↔ ∃ v, alookup m k = some v := by
  simp [acontains, Option.isSome_iff_exists]

/-- **C5**: marshaling emits exactly the explicitly-assigned fields of a
record.  The wire keys of a server-view marshal are precisely the
`data_key`s of the schema fields whose attribute is explicitly set (in
declaration order); a record with no explicitly assigned fields marshals
to an empty object under both views regardless of the fields' defaults;
and for a schema without duplicate wire keys, a field that was not
explicitly assigned (i.e. was left at its default) never contributes its
wire key to the output. -/
theorem partial_serialization_only_set_fields (fs : List FieldSpec) (r : Record) :
    akeys (Record.to_client fs r)
        = (fs.filter (fun f => acontains (get_set_attrs r) f.name)).map
            (fun f => f.data_key)
    ∧ Record.to_client fs ⟨[]⟩ = []
    ∧ Record.to_server fs ⟨[]⟩ = []
    ∧ ∀ f ∈ fs, (fs.map (fun g => g.data_key)).Nodup →
        acontains (get_set_attrs r) f.name = false →
        f.data_key ∉ akeys (Record.to_client fs r) := by
  refine ⟨schemaDump_keys fs r.setAttrs, schemaDump_nil_attrs fs,
    schemaDump_nil_attrs _, ?_⟩
  intro f hf hnd hset
  rw [Record.to_client, get_set_attrs, schemaDump_keys]
  intro hmem
  obtain ⟨g, hg, hgdk⟩ := List.mem_map.mp hmem
  have hgfs : g ∈ fs := (List.mem_filter.mp hg).1
  have hgset : acontains r.setAttrs g.name = true := by
    simpa using (List.mem_filter.mp hg).2
  have hgf : g = f := List.inj_on_of_nodup_map hnd hgfs hf hgdk
  rw [hgf] at hgset
  simp only [get_set_attrs] at hset
  rw [hset] at hgset
  exact absurd hgset (by decide)

/-- Fixture schema for the C5 witness: one optional field `role`. -/
def fsRole : List FieldSpec :=
  [⟨"role", "role", false, false, id, fun j => Except.ok j⟩]

/-- Witness for C5 at a concrete schema and an empty record. -/
theorem partial_serialization_only_set_fields_witness :
    Record.to_client fsRole ⟨[]⟩ = []
    ∧ "role" ∉ akeys (Record.to_client fsRole ⟨[]⟩) := by
  have h := partial_serialization_only_set_fields fsRole ⟨[]⟩
  refine ⟨h.2.1, ?_⟩
  exact h.2.2.2 ⟨"role", "role", false, false, id, fun j => Except.ok j⟩
    (by simp [fsRole]) (by simp [fsRole]) (by rfl)

theorem alookup_none_of_not_mem_akeys [DecidableEq κ] {m : List (κ × α)} {k : κ}
    (h : k ∉ akeys m) : alookup m k = none := by
  induction m with
  | nil => rfl
  | cons kv rest ih =>
      obtain ⟨k₀, v₀⟩ := kv
      have h1 : ¬ k₀ = k := fun he => h (by simp [akeys, he])
      have h2 : k ∉ akeys rest := fun hm => h (by simp [akeys] at hm ⊢; exact Or.inr hm)
      simp only [alookup, if_neg h1]
      exact ih h2

/-- The explicitly-set attribute map holding, for each schema field in
order, the value `vals` assigns to it (if any). -/
def attrsOf (fs : List FieldSpec) (vals : String → Option Json) :
    List (String × Json) :=
  fs.filterMap (fun f => (vals f.name).map (fun v => (f.name, v)))

theorem alookup_attrsOf_none {fs : List FieldSpec} {vals : String → Option Json}
    {k : String} (h : k ∉ fs.map (fun g => g.name)) :
    alookup (attrsOf fs vals) k = none := by
  apply alookup_none_of_not_mem_akeys
  intro hmem
  apply h
  simp only [attrsOf, akeys] at hmem
  obtain ⟨kv, hkv, rfl⟩ := List.mem_map.mp hmem
  obtain ⟨f, hf, hmk⟩ := List.mem_filterMap.mp hkv
  cases hv : vals f.name with
  | none => rw [hv] at hmk; simp at hmk
  | some v =>
      rw [hv] at hmk
      injection hmk with h2
      subst h2
      exact List.mem_map.mpr ⟨f, hf, rfl⟩

theorem alookup_attrsOf {fs : List FieldSpec} {vals : String → Option Json}
    (hn : (fs.map (fun g => g.name)).Nodup) {f : FieldSpec} (hf : f ∈ fs) :
    alookup (attrsOf fs vals) f.name = vals f.name := by
  induction fs with
  | nil => cases hf
  | cons g rest ih =>
      simp only [List.map_cons, List.nodup_cons] at hn
      rcases List.mem_cons.mp hf with rfl | hfr
      · cases hv : vals f.name with
        | none =>
            simp only [attrsOf, List.filterMap_cons, hv, Option.map_none]
            exact alookup_attrsOf_none hn.1
        | some v =>
            simp [attrsOf, List.filterMap_cons, hv, alookup]
      · have hne : g.name ≠ f.name := by
          intro he
          exact hn.1 (he ▸ List.mem_map.mpr ⟨f, hfr, rfl⟩)
        cases hv : vals g.name with
        | none =>
            simp only [attrsOf, List.filterMap_cons, hv, Option.map_none]
            exact ih hn.2 hfr
        | some v =>
            simp only [attrsOf, List.filterMap_cons, hv, Option.map_some]
            simp only [alookup, if_neg hne]
            exact ih hn.2 hfr

theorem alookup_schemaDump {fs : List FieldSpec} {attrs : List (String × Json)}
    (hdk : (fs.map (fun g => g.data_key)).Nodup) {f : FieldSpec} (hf : f ∈ fs) :
    alookup (schemaDump fs attrs) f.data_key
      = (alookup attrs f.name).map f.ser := by
  induction fs with
  | nil => cases hf
  | cons g rest ih =>
      simp only [List.map_cons, List.nodup_cons] at hdk
      rw [schemaDump_cons]
      rcases List.mem_cons.mp hf with rfl | hfr
      · cases hv : alookup attrs f.name with
        | none =>
            simp only [hv, Option.map_none, List.nil_append]
            apply alookup_none_of_not_mem_akeys
            rw [schemaDump_keys]
            intro hmem
            obtain ⟨g, hg, hgdk⟩ := List.mem_map.mp hmem
            exact hdk.1 (hgdk ▸ List.mem_map.mpr ⟨g, (List.mem_filter.mp hg).1, rfl⟩)
        | some v =>
            simp [hv, alookup]
      · have hne : g.data_key ≠ f.data_key := by
          intro he
          exact hdk.1 (he ▸ List.mem_map.mpr ⟨f, hfr, rfl⟩)
        cases hv : alookup attrs g.name with
        | none => simpa [hv] using ih hdk.2 hfr
        | some v =>
            simp only [hv, List.singleton_append]
            simp only [alookup, if_neg hne]
            exact ih hdk.2 hfr

theorem schemaLoad_unknown_false (fs : List FieldSpec)
    (attrs : List (String × Json)) :
    (schemaDump fs attrs).any
      (fun kv => !(fs.any (fun f => f.data_key == kv.1))) = false := by
  rw [List.any_eq_false]
  intro kv hkv
  have hk : kv.1 ∈ akeys (schemaDump fs attrs) :=
    List.mem_map.mpr ⟨kv, hkv, rfl⟩
  rw [schemaDump_keys] at hk
  obtain ⟨f, hf, hfdk⟩ := List.mem_map.mp hk
  have : fs.any (fun g => g.data_key == kv.1) = true :=
    List.any_eq_true.mpr ⟨f, (List.mem_filter.mp hf).1, by simp [hfdk]⟩
  simp [this]

theorem except_bind_ok (a : α) (f : α → Except ε β) :
    (Except.ok a >>= f) = f a := rfl

theorem except_map_ok (a : α) (f : α → β) :
    Except.map f (Except.ok a : Except ε α) = Except.ok (f a) := rfl

theorem schemaLoad_fold (dumped : List (String × Json))
    (vals : String → Option Json) :
    ∀ (gs : List FieldSpec) (acc : List (String × Json)),
      (∀ f ∈ gs, alookup dumped f.data_key = (vals f.name).map f.ser
        ∧ (vals f.name = none → f.required = false)
        ∧ ∀ v, vals f.name = some v → f.deser (f.ser v) = .ok v) →
      (gs.foldlM (fun acc f =>
          match alookup dumped f.data_key with
          | none =>
              if f.required then Except.error "Missing data for required field."
              else Except.ok acc
          | some v => (f.deser v).map (fun x => acc ++ [(f.name, x)])) acc)
        = Except.ok (acc ++ attrsOf gs vals) := by
  intro gs
  induction gs with
  | nil =>
      intro acc _
      simp [attrsOf]
      rfl
  | cons g gs ih =>
      intro acc h
      have hg := h g (List.mem_cons_self g gs)
      have hrest := fun f hf => h f (List.mem_cons_of_mem g hf)
      cases hv : vals g.name with
      | none =>
          have hl : alookup dumped g.data_key = none := by rw [hg.1, hv]; rfl
          have hreq : g.required = false := hg.2.1 hv
          simp only [List.foldlM_cons, hl, hreq, Bool.false_eq_true, if_false,
            except_bind_ok]
          rw [ih acc hrest]
          simp [attrsOf, List.filterMap_cons, hv]
      | some v =>
          have hl : alookup dumped g.data_key = some (g.ser v) := by
            rw [hg.1, hv]; rfl
          have hdes : g.deser (g.ser v) = .ok v := hg.2.2 v hv
          simp only [List.foldlM_cons, hl, hdes, except_map_ok, except_bind_ok]
          rw [ih (acc ++ [(g.name, v)]) hrest]
          simp [attrsOf, List.filterMap_cons, hv]

theorem except_map_error (f : α → β) (e : ε) :
    Except.map f (Except.error e : Except ε α) = Except.error e := rfl

/-- **C6**: a `server_set` field can never be supplied through
client-view unmarshal — for a schema without duplicate wire keys, an
input containing that field's wire key fails validation whatever the
supplied value, because the field is absent from the client view and the
strict unknown-field check rejects its key — while a record with the
field explicitly set round-trips unchanged through server-view marshal
(`to_client`, `use_server_fields=True`) followed by server-view
unmarshal (`from_server`). -/
theorem server_set_client_reject_and_server_roundtrip :
    (∀ (fs : List FieldSpec) (f : FieldSpec), f ∈ fs → f.server_set = true →
      (fs.map (fun g => g.data_key)).Nodup →
      ∀ (input : List (String × Json)) (v : Json),
        alookup input f.data_key = some v →
        Record.from_client fs input = .error "Unknown field.")
    ∧ (∀ (fs : List FieldSpec) (vals : String → Option Json),
        (fs.map (fun g => g.name)).Nodup →
        (fs.map (fun g => g.data_key)).Nodup →
        (∀ f ∈ fs, f.required = true → vals f.name ≠ none) →
        (∀ f ∈ fs, ∀ v, vals f.name = some v → f.deser (f.ser v) = .ok v) →
        Record.from_server fs (Record.to_client fs ⟨attrsOf fs vals⟩)
          = .ok ⟨attrsOf fs vals⟩) := by
  constructor
  · intro fs f hf hss hnd input v hlook
    have hkv : (f.data_key, v) ∈ input := alookup_eq_some_mem hlook
    have hclient :
        (clientFields fs).any (fun g => g.data_key == f.data_key) = false := by
      rw [List.any_eq_false]
      intro g hg hpred
      have hgf : g ∈ fs := (List.mem_filter.mp hg).1
      have hgss : g.server_set = false := by
        simpa using (List.mem_filter.mp hg).2
      have heq : g.data_key = f.data_key := by simpa using hpred
      have hgfe : g = f := List.inj_on_of_nodup_map hnd hgf hf heq
      rw [hgfe, hss] at hgss
      cases hgss
    have hany : input.any
        (fun kv => !((clientFields fs).any (fun g => g.data_key == kv.1)))
          = true := by
      rw [List.any_eq_true]
      exact ⟨(f.data_key, v), hkv, by simp [hclient]⟩
    simp only [Record.from_client, schemaLoad, hany, if_true, except_map_error]
  · intro fs vals hn hdk hreq hrt
    have hpre : ∀ f ∈ fs,
        alookup (schemaDump fs (attrsOf fs vals)) f.data_key
            = (vals f.name).map f.ser
          ∧ (vals f.name = none → f.required = false)
          ∧ ∀ v, vals f.name = some v → f.deser (f.ser v) = .ok v := by
      intro f hf
      refine ⟨?_, ?_, hrt f hf⟩
      · rw [alookup_schemaDump hdk hf, alookup_attrsOf hn hf]
      · intro hv
        cases hr : f.required with
        | false => rfl
        | true => exact absurd hv (hreq f hf hr)
    have hunk := schemaLoad_unknown_false fs (attrsOf fs vals)
    simp only [Record.from_server, Record.to_client, get_set_attrs, schemaLoad,
      hunk, Bool.false_eq_true, if_false]
    rw [schemaLoad_fold (schemaDump fs (attrsOf fs vals)) vals fs [] hpre]
    rfl

/-- Fixture for the C6 witness: a single `server_set` field `id`. -/
def fieldIdW : FieldSpec := ⟨"id", "id", true, false, id, fun j => Except.ok j⟩

def fsIdW : List FieldSpec := [fieldIdW]

def valsIdW : String → Option Json :=
  fun n => if n = "id" then some (Json.str "1") else none

/-- Witness for C6 at a concrete one-field schema. -/
theorem server_set_client_reject_and_server_roundtrip_witness :
    Record.from_client fsIdW [("id", Json.str "1")] = .error "Unknown field."
    ∧ Record.from_server fsIdW (Record.to_client fsIdW ⟨attrsOf fsIdW valsIdW⟩)
        = .ok ⟨attrsOf fsIdW valsIdW⟩ := by
  have h := server_set_client_reject_and_server_roundtrip
  refine ⟨h.1 fsIdW fieldIdW (by simp [fsIdW]) rfl (by simp [fsIdW])
      [("id", Json.str "1")] (Json.str "1") (by simp [alookup, fieldIdW]), ?_⟩
  refine h.2 fsIdW valsIdW (by simp [fsIdW]) (by simp [fsIdW]) ?_ ?_
  · intro f hf hr
    simp only [fsIdW, List.mem_singleton] at hf
    subst hf
    exact absurd hr (by decide)
  · intro f hf v hv
    simp only [fsIdW, List.mem_singleton] at hf
    subst hf
    rfl

/-- **C7**: for a union of two record schemas with declared key sets
`{shared, a}` and `{shared, b}`, `PolyField._deserialize` resolves an
object containing key `a` with the first schema (even if `b` is also
present), an object containing `b` but not `a` with the second schema,
and fails with a validation error on an object containing neither — in
particular on one containing only the shared key. -/
theorem union_two_schemas_unique_key_disambiguation
    (shared a b : String) (loadA loadB : Json → Except String Json)
    (attr : String) (kvs : List (String × Json))
    (hab : a ≠ b) (hsa : shared ≠ a) (hsb : shared ≠ b) :
    (a ∈ kvs.map (fun kv => kv.1) →
        polyDeserializeSingle
          [.model ⟨none, [shared, a], loadA⟩, .model ⟨none, [shared, b], loadB⟩]
          attr (.obj kvs) = loadA (.obj kvs))
    ∧ (a ∉ kvs.map (fun kv => kv.1) →
        b ∈ kvs.map (fun kv => kv.1) →
        polyDeserializeSingle
          [.model ⟨none, [shared, a], loadA⟩, .model ⟨none, [shared, b], loadB⟩]
          attr (.obj kvs) = loadB (.obj kvs))
    ∧ (a ∉ kvs.map (fun kv => kv.1) →
        b ∉ kvs.map (fun kv => kv.1) →
        polyDeserializeSingle
          [.model ⟨none, [shared, a], loadA⟩, .model ⟨none, [shared, b], loadB⟩]
          attr (.obj kvs)
          = .error ("Not one of the possible valid types for \"" ++ attr ++
              "\": " ++ (Json.obj kvs).pyStr)) := by
  have hwh : whPass
      [.model ⟨none, [shared, a], loadA⟩, .model ⟨none, [shared, b], loadB⟩]
      (.obj kvs) = .ok ([] : List Json) := rfl
  have hpf : primFirst
      [.model ⟨none, [shared, a], loadA⟩, .model ⟨none, [shared, b], loadB⟩]
      (.obj kvs) = none := rfl
  have hcA : countSchemasWithKey
      [⟨none, [shared, a], loadA⟩, ⟨none, [shared, b], loadB⟩] a = 1 := by
    simp [countSchemasWithKey, List.contains_cons, hab, hab.symm, hsa, hsa.symm, hsb, hsb.symm]
  have hcB : countSchemasWithKey
      [⟨none, [shared, a], loadA⟩, ⟨none, [shared, b], loadB⟩] b = 1 := by
    simp [countSchemasWithKey, List.contains_cons, hab, hab.symm, hsa, hsa.symm, hsb, hsb.symm]
  have hcS : countSchemasWithKey
      [⟨none, [shared, a], loadA⟩, ⟨none, [shared, b], loadB⟩] shared = 2 := by
    simp [countSchemasWithKey, List.contains_cons]
  refine ⟨?_, ?_, ?_⟩
  · intro hina
    have hm : schemaKeyMatch
        [⟨none, [shared, a], loadA⟩, ⟨none, [shared, b], loadB⟩]
        (kvs.map (fun kv => kv.1)) = some ⟨none, [shared, a], loadA⟩ := by
      simp [schemaKeyMatch, List.find?, List.any_cons, hcA, hcS, hina]
    cases hl : loadA (.obj kvs) with
    | ok d =>
        simp [polyDeserializeSingle, hwh, hpf, modelCands, hm, hl, except_bind_ok]
    | error e =>
        simp [polyDeserializeSingle, hwh, hpf, modelCands, hm, hl, except_bind_ok]
  · intro hina hinb
    have hm : schemaKeyMatch
        [⟨none, [shared, a], loadA⟩, ⟨none, [shared, b], loadB⟩]
        (kvs.map (fun kv => kv.1)) = some ⟨none, [shared, b], loadB⟩ := by
      simp [schemaKeyMatch, List.find?, List.any_cons, hcA, hcB, hcS, hina, hinb]
    cases hl : loadB (.obj kvs) with
    | ok d =>
        simp [polyDeserializeSingle, hwh, hpf, modelCands, hm, hl, except_bind_ok]
    | error e =>
        simp [polyDeserializeSingle, hwh, hpf, modelCands, hm, hl, except_bind_ok]
  · intro hina hinb
    have hm : schemaKeyMatch
        [⟨none, [shared, a], loadA⟩, ⟨none, [shared, b], loadB⟩]
        (kvs.map (fun kv => kv.1)) = none := by
      simp [schemaKeyMatch, List.find?, List.any_cons, hcA, hcB, hcS, hina, hinb]
    simp [polyDeserializeSingle, hwh, hpf, modelCands, hm, except_bind_ok]

/-- Witness for C7 at concrete keys and loaders. -/
theorem union_two_schemas_unique_key_disambiguation_witness :
    polyDeserializeSingle
      [.model ⟨none, ["shared", "a"], fun _ => Except.ok (Json.num 1)⟩,
       .model ⟨none, ["shared", "b"], fun _ => Except.ok (Json.num 2)⟩]
      "x" (.obj [("a", Json.str "v")]) = Except.ok (Json.num 1) := by
  have h := union_two_schemas_unique_key_disambiguation "shared" "a" "b"
    (fun _ => Except.ok (Json.num 1)) (fun _ => Except.ok (Json.num 2))
    "x" [("a", Json.str "v")] (by decide) (by decide) (by decide)
  exact h.1 (by simp)

/-! ### The executor (jmap/protocol/executor.py)

The executor is generic over what modules return; `rp` stands for
`resolve_pointer` from `jmap/protocol/jsonpointer.py`, which is not in
the tree — the theorems quantify over it, using only that a
`JsonPointerException` is modelled by its `Except.error` case. -/

/-- `MethodCall` (models.py lines 731-735).  `parse_methods` performs no
type validation, so all three components are arbitrary values. -/
structure MethodCall where
  name : Json
  args : Json
  client_id : Json
  deriving DecidableEq

/-- `JMapRequest` (models.py lines 738-762); `usingCaps` is the `using`
field, stored unvalidated. -/
structure JMapRequest where
  usingCaps : Json
  method_calls : List MethodCall
  deriving DecidableEq

/-- One `[response_name, response_data, client_id]` triple of the
response list (executor.py lines 78-84). -/
structure ResponseEntry where
  response_name : Json
  response_data : PyVal
  client_id : Json
  deriving DecidableEq

/-- `JMapResponse` (models.py lines 776-783). -/
structure JMapResponse where
  method_responses : List ResponseEntry
  deriving DecidableEq

/-- `ResultReference` (models.py lines 786-791): three required string
fields. -/
structure ResultReference where
  result_of : String
  name : String
  path : String
  deriving DecidableEq

/-- marshmallow `fields.String._deserialize`: accepts exactly strings. -/
def strFieldDeser : Json → Except String Json
  | .str s => .ok (.str s)
  | _ => .error "Not a valid string."

/-- The compiled schema of `ResultReference`: `result_of`/`name`/`path`,
all required, wire keys camelCased. -/
def resultReferenceFields : List FieldSpec :=
  [⟨"result_of", "resultOf", false, true, id, strFieldDeser⟩,
   ⟨"name", "name", false, true, id, strFieldDeser⟩,
   ⟨"path", "path", false, true, id, strFieldDeser⟩]

/-- `ResultReference.from_client`: client-view unmarshal of the three
string fields (a non-dict input is a marshmallow invalid-input error). -/
def ResultReference.from_client : Json → Except String ResultReference
  | .obj kvs =>
      match Record.from_client resultReferenceFields kvs with
      | .error e => .error e
      | .ok r =>
          match alookup r.setAttrs "result_of", alookup r.setAttrs "name",
                alookup r.setAttrs "path" with
          | some (.str ro), some (.str n), some (.str p) => .ok ⟨ro, n, p⟩
          | _, _, _ => .error "Invalid input."
  | v => .error ("Invalid input type: " ++ v.pyStr)

/-- A backend module as the executor sees it (`JmapModuleInterface`):
`methods` is `get_methods()`, `run` is `execute(method_name, args)`. -/
structure Module where
  methods : List String
  run : String → Json → Except PyErr PyVal

/-- `{method: m for m in modules for method in m.get_methods()}`
(executor.py line 57). -/
def availableMethodsOf (modules : List Module) : List (String × Module) :=
  modules.foldl
    (fun acc m => m.methods.foldl (fun acc meth => ainsert acc meth m) acc) []

/-- The executor's only state: the method registry built in `__init__`. -/
structure Executor where
  available_methods : List (String × Module)

/-- `Executor.__init__(modules)`. -/
def Executor.ofModules (modules : List Module) : Executor :=
  ⟨availableMethodsOf modules⟩

/-- The per-batch response table `responses_by_client_id`
(client_id → {response_name → response_data}). -/
abbrev DB := List (Json × List (Json × PyVal))

/-- The string contents of a list of values; iterating stops with
`TypeError` at the first non-string item. -/
def strList : List Json → Except PyErr (List String)
  | [] => .ok []
  | j :: rest =>
      match j with
      | .str s => (strList rest).map (fun ns => s :: ns)
      | _ => .error (.typeError "sequence item: expected str instance")

/-- `", ".join(keys)`: every joined item must be a string, otherwise
Python raises `TypeError`. -/
def joinStrings (l : List Json) : Except PyErr String :=
  (strList l).map (String.intercalate ", ")

/-- `resolve_reference` (executor.py lines 21-38). -/
def resolve_reference (rp : Json → String → Except String Json)
    (ref : ResultReference) (db : DB) : Except PyErr Json :=
  match alookup db (Json.str ref.result_of) with
  | none => .error (.methodError "invalidResultReference"
      (some ("Not found a previous method call with id " ++ ref.result_of)))
  | some responses =>
      match alookup responses (Json.str ref.name) with
      | none =>
          match joinStrings (akeys responses) with
          | .error e => .error e
          | .ok names => .error (.methodError "invalidResultReference"
              (some ("Previous method call with id \"" ++ ref.result_of ++
                "\" has no response named \"" ++ ref.name ++
                "\", possible names are: " ++ names)))
      | some response =>
          match response.to_client with
          | .error e => .error e
          | .ok cj =>
              match rp cj ref.path with
              | .error msg => .error (.methodError "invalidResultReference" (some msg))
              | .ok v => .ok v

/-- `arg_name.startswith('#')`: the key's first character is `#`. -/
def startsWithHash (k : String) : Bool :=
  match k.data with
  | '#' :: _ => true
  | _ => false

/-- The reference-resolution loop of `execute_method` (executor.py lines
96-106): iterate over a snapshot of the keys; for each `#`-prefixed key,
decode the `ResultReference` (decoding failure is a request-level
`notRequest`), resolve it, bind the unprefixed key to the resolved value
and delete the prefixed key. -/
def processRefArgs (rp : Json → String → Except String Json) (db : DB) :
    List String → List (String × Json) → Except PyErr (List (String × Json))
  | [], args => .ok args
  | k :: rest, args =>
      if startsWithHash k then
        match alookup args k with
        | none => .error (.keyError k)
        | some v =>
            match ResultReference.from_client v with
            | .error msg => .error (.requestError "notRequest" (some msg))
            | .ok ref =>
                match resolve_reference rp ref db with
                | .error e => .error e
                | .ok nv =>
                    processRefArgs rp db rest (aerase (ainsert args (k.drop 1) nv) k)
      else processRefArgs rp db rest args

/-- `Executor.execute_method` (executor.py lines 88-112): an unregistered
name raises the local `MethodNotFound` (after an unhashable name raises
`TypeError` at the `in` test); references in dict args are resolved;
then the module runs, with a `NotImplementedError` converted to the
method-level `unknownMethod` error. -/
def Executor.execute_method (rp : Json → String → Except String Json)
    (ex : Executor) (mc : MethodCall) (db : DB) : Except PyErr PyVal :=
  if mc.name.hashable = false then .error (.typeError "unhashable type") else
  match mc.name with
  | .str s =>
      match alookup ex.available_methods s with
      | none => .error (.methodNotFound mc.name)
      | some m =>
          match (match mc.args with
                 | .obj kvs => (processRefArgs rp db (akeys kvs) kvs).map Json.obj
                 | other => .ok other) with
          | .error e => .error e
          | .ok args2 =>
              match m.run s args2 with
              | .error .notImplemented =>
                  .error (.methodError "unknownMethod"
                    (some "This method is not implemented."))
              | r => r
  | _ => .error (.methodNotFound mc.name)

/-- `responses_by_client_id[client_id][response_name] = response_data`
(executor.py line 76); both keys must be hashable. -/
def recordResult (db : DB) (cid : Json) (rname : Json) (rdata : PyVal) :
    Except PyErr DB :=
  if cid.hashable && rname.hashable then
    .ok (ainsert db cid (ainsert ((alookup db cid).getD []) rname rdata))
  else .error (.typeError "unhashable type")

/-- The per-call loop of `Executor.execute` (executor.py lines 65-84):
only `JMapMethodError` is caught and turned into an
`['error', exc.to_json(), client_id]` entry; any other exception aborts
the batch. -/
def Executor.executeCalls (rp : Json → String → Except String Json)
    (ex : Executor) :
    List MethodCall → DB → Except PyErr (List ResponseEntry × DB)
  | [], db => .ok ([], db)
  | mc :: rest, db =>
      match (match ex.execute_method rp mc db with
             | .ok v => .ok (mc.name, v)
             | .error (.methodError t d) =>
                 .ok (Json.str "error", PyVal.js (methodErrorToJson t d))
             | .error e => .error e : Except PyErr (Json × PyVal)) with
      | .error e => .error e
      | .ok (rname, rdata) =>
          match recordResult db mc.client_id rname rdata with
          | .error e => .error e
          | .ok db1 =>
              match ex.executeCalls rp rest db1 with
              | .error e => .error e
              | .ok (entries, db2) =>
                  .ok (⟨rname, rdata, mc.client_id⟩ :: entries, db2)

/-- `Executor.execute` (executor.py lines 59-86): a fresh empty response
table per invocation; the executor itself is returned unchanged (no
statement of the method writes to `self`). -/
def Executor.execute (rp : Json → String → Except String Json) (ex : Executor)
    (req : JMapRequest) : (Except PyErr JMapResponse) × Executor :=
  ((ex.executeCalls rp req.method_calls []).map (fun r => ⟨r.1⟩), ex)

/-! ### Association-list lemmas for the executor proofs -/

theorem alookup_ainsert_self [DecidableEq κ] (m : List (κ × α)) (k : κ) (v : α) :
    alookup (ainsert m k v) k = some v := by
  induction m with
  | nil => simp [ainsert, alookup]
  | cons kv rest ih =>
      obtain ⟨k₀, v₀⟩ := kv
      by_cases hk : k₀ = k
      · simp [ainsert, hk, alookup]
      · simp [ainsert, hk, alookup, ih]

theorem alookup_ainsert_ne [DecidableEq κ] (m : List (κ × α)) (k k' : κ) (v : α)
    (h : k ≠ k') : alookup (ainsert m k v) k' = alookup m k' := by
  induction m with
  | nil => simp [ainsert, alookup, h]
  | cons kv rest ih =>
      obtain ⟨k₀, v₀⟩ := kv
      by_cases hk : k₀ = k
      · subst hk; simp [ainsert, alookup, h, ih]
      · simp [ainsert, hk, alookup, ih]

theorem alookup_aerase_ne [DecidableEq κ] (m : List (κ × α)) (k k' : κ)
    (h : k ≠ k') : alookup (aerase m k) k' = alookup m k' := by
  induction m with
  | nil => simp [aerase, alookup]
  | cons kv rest ih =>
      obtain ⟨k₀, v₀⟩ := kv
      by_cases hk : k₀ = k
      · subst hk; simp [aerase, alookup, h, ih]
      · simp [aerase, hk, alookup, ih]

theorem alookup_aerase_self [DecidableEq κ] (m : List (κ × α)) (k : κ)
    (hnd : (akeys m).Nodup) : alookup (aerase m k) k = none := by
  induction m with
  | nil => rfl
  | cons kv rest ih =>
      obtain ⟨k₀, v₀⟩ := kv
      simp only [akeys, List.map_cons, List.nodup_cons] at hnd
      by_cases hk : k₀ = k
      · subst hk
        simp only [aerase, if_pos rfl]
        exact alookup_none_of_not_mem_akeys hnd.1
      · simp only [aerase, if_neg hk, alookup, if_neg hk]
        exact ih hnd.2

theorem mem_akeys_ainsert [DecidableEq κ] (m : List (κ × α)) (k : κ) (v : α)
    (x : κ) (h : x ∈ akeys (ainsert m k v)) : x = k ∨ x ∈ akeys m := by
  induction m with
  | nil => simpa [ainsert, akeys] using h
  | cons kv rest ih =>
      obtain ⟨k₀, v₀⟩ := kv
      by_cases hk : k₀ = k
      · subst hk
        simp [ainsert, akeys] at h ⊢
        tauto
      · simp only [ainsert, if_neg hk, akeys, List.map_cons, List.mem_cons] at h ⊢
        rcases h with h | h
        · tauto
        · rcases ih h with h | h <;> tauto

theorem akeys_ainsert_nodup [DecidableEq κ] (m : List (κ × α)) (k : κ) (v : α)
    (hnd : (akeys m).Nodup) : (akeys (ainsert m k v)).Nodup := by
  induction m with
  | nil => simp [ainsert, akeys]
  | cons kv rest ih =>
      obtain ⟨k₀, v₀⟩ := kv
      simp only [akeys, List.map_cons, List.nodup_cons] at hnd
      by_cases hk : k₀ = k
      · subst hk
        simp [ainsert, akeys]
        refine ⟨?_, by simpa [akeys] using hnd.2⟩
        intro x hx
        exact hnd.1 (List.mem_map.mpr ⟨(k₀, x), hx, rfl⟩)
      · simp only [ainsert, if_neg hk, akeys, List.map_cons, List.nodup_cons]
        refine ⟨?_, ih hnd.2⟩
        intro hmem
        rcases mem_akeys_ainsert rest k v k₀ hmem with h | h
        · exact hk h
        · exact hnd.1 h

/-! ### Step and inversion lemmas for `executeCalls` -/

theorem executeCalls_nil (rp : Json → String → Except String Json)
    (ex : Executor) (db : DB) : ex.executeCalls rp [] db = .ok ([], db) := rfl

theorem executeCalls_cons_inv (rp : Json → String → Except String Json)
    (ex : Executor) (mc : MethodCall) (rest : List MethodCall) (db : DB)
    (entries : List ResponseEntry) (db' : DB)
    (h : ex.executeCalls rp (mc :: rest) db = .ok (entries, db')) :
    ∃ rname rdata db1 entriesRest,
      ((∃ v, ex.execute_method rp mc db = .ok v ∧ rname = mc.name ∧ rdata = v)
       ∨ (∃ t d, ex.execute_method rp mc db = .error (.methodError t d)
           ∧ rname = Json.str "error" ∧ rdata = PyVal.js (methodErrorToJson t d)))
      ∧ recordResult db mc.client_id rname rdata = .ok db1
      ∧ ex.executeCalls rp rest db1 = .ok (entriesRest, db')
      ∧ entries = ⟨rname, rdata, mc.client_id⟩ :: entriesRest := by
  simp only [Executor.executeCalls] at h
  cases hm : ex.execute_method rp mc db with
  | ok v =>
      simp only [hm] at h
      cases hr : recordResult db mc.client_id mc.name v with
      | error e => simp [hr] at h
      | ok db1 =>
          simp only [hr] at h
          cases hrest : ex.executeCalls rp rest db1 with
          | error e => simp [hrest] at h
          | ok p =>
              obtain ⟨entriesRest, db2⟩ := p
              simp only [hrest] at h
              injection h with h1
              injection h1 with he hd
              exact ⟨mc.name, v, db1, entriesRest,
                Or.inl ⟨v, rfl, rfl, rfl⟩, hr, by rw [hd] at hrest; exact hrest,
                he.symm⟩
  | error e =>
      cases e with
      | methodError t d =>
          simp only [hm] at h
          cases hr : recordResult db mc.client_id (Json.str "error")
              (PyVal.js (methodErrorToJson t d)) with
          | error e2 => simp [hr] at h
          | ok db1 =>
              simp only [hr] at h
              cases hrest : ex.executeCalls rp rest db1 with
              | error e2 => simp [hrest] at h
              | ok p =>
                  obtain ⟨entriesRest, db2⟩ := p
                  simp only [hrest] at h
                  injection h with h1
                  injection h1 with he hd
                  exact ⟨Json.str "error", PyVal.js (methodErrorToJson t d), db1,
                    entriesRest, Or.inr ⟨t, d, rfl, rfl, rfl⟩, hr,
                    by rw [hd] at hrest; exact hrest, he.symm⟩
      | requestError t d => simp [hm] at h
      | methodNotFound n => simp [hm] at h
      | notImplemented => simp [hm] at h
      | validationError m2 => simp [hm] at h
      | typeError m2 => simp [hm] at h
      | valueError m2 => simp [hm] at h
      | keyError k2 => simp [hm] at h
      | attributeError m2 => simp [hm] at h

theorem executeCalls_cons_ok (rp : Json → String → Except String Json)
    (ex : Executor) (mc : MethodCall) (rest : List MethodCall) (db : DB)
    (v : PyVal) (db1 : DB)
    (hm : ex.execute_method rp mc db = .ok v)
    (hr : recordResult db mc.client_id mc.name v = .ok db1) :
    ex.executeCalls rp (mc :: rest) db =
      (ex.executeCalls rp rest db1).map
        (fun r => (⟨mc.name, v, mc.client_id⟩ :: r.1, r.2)) := by
  simp only [Executor.executeCalls, hm, hr]
  cases hrest : ex.executeCalls rp rest db1 with
  | error e => rfl
  | ok p => rfl

theorem executeCalls_cons_methodError (rp : Json → String → Except String Json)
    (ex : Executor) (mc : MethodCall) (rest : List MethodCall) (db : DB)
    (t : String) (d : Option String) (db1 : DB)
    (hm : ex.execute_method rp mc db = .error (.methodError t d))
    (hr : recordResult db mc.client_id (Json.str "error")
        (PyVal.js (methodErrorToJson t d)) = .ok db1) :
    ex.executeCalls rp (mc :: rest) db =
      (ex.executeCalls rp rest db1).map
        (fun r => (⟨Json.str "error", PyVal.js (methodErrorToJson t d),
          mc.client_id⟩ :: r.1, r.2)) := by
  simp only [Executor.executeCalls, hm, hr]
  cases hrest : ex.executeCalls rp rest db1 with
  | error e => rfl
  | ok p => rfl

theorem executeCalls_cons_fatal (rp : Json → String → Except String Json)
    (ex : Executor) (mc : MethodCall) (rest : List MethodCall) (db : DB)
    (e : PyErr)
    (hm : ex.execute_method rp mc db = .error e)
    (hne : ∀ t d, e ≠ .methodError t d) :
    ex.executeCalls rp (mc :: rest) db = .error e := by
  cases e <;>
    first
      | exact absurd rfl (hne _ _)
      | simp [Executor.executeCalls, hm]

/-- **C1**: when a batch of `n` calls completes (each call either
returned a result or raised a method-level error; any other exception
aborts the batch and contradicts the hypothesis), the response list has
exactly `n` entries in input-call order; the `i`-th entry carries the
`i`-th call's `client_id` and is `[method_name, result, client_id]` when
that call succeeded and `['error', error.to_json(), client_id]` when it
raised a method-level error; and a method-level error never aborts the
batch — execution continues with the remaining calls unchanged. -/
theorem executor_batch_shape (rp : Json → String → Except String Json)
    (ex : Executor) :
    (∀ (calls : List MethodCall) (db : DB) (entries : List ResponseEntry)
       (db' : DB), ex.executeCalls rp calls db = .ok (entries, db') →
       entries.length = calls.length
       ∧ ∀ i, i < calls.length → ∃ dbi mc e,
           calls[i]? = some mc ∧ entries[i]? = some e
           ∧ ex.executeCalls rp (calls.take i) db = .ok (entries.take i, dbi)
           ∧ e.client_id = mc.client_id
           ∧ ((∃ v, ex.execute_method rp mc dbi = .ok v
                 ∧ e = ⟨mc.name, v, mc.client_id⟩)
             ∨ (∃ t d, ex.execute_method rp mc dbi = .error (.methodError t d)
                 ∧ e = ⟨Json.str "error", PyVal.js (methodErrorToJson t d),
                     mc.client_id⟩)))
    ∧ ∀ (mc : MethodCall) (rest : List MethodCall) (db : DB) (t : String)
        (d : Option String), mc.client_id.hashable = true →
        ex.execute_method rp mc db = .error (.methodError t d) →
        ∃ db1, ex.executeCalls rp (mc :: rest) db
          = (ex.executeCalls rp rest db1).map
              (fun r => (⟨Json.str "error", PyVal.js (methodErrorToJson t d),
                mc.client_id⟩ :: r.1, r.2)) := by
  constructor
  · intro calls
    induction calls with
    | nil =>
        intro db entries db' h
        rw [executeCalls_nil] at h
        injection h with h1
        injection h1 with he hd
        constructor
        · rw [← he]; rfl
        · intro i hi; simp at hi
    | cons mc rest ih =>
        intro db entries db' h
        obtain ⟨rname, rdata, db1, entriesRest, hcase, hr, hrest, hent⟩ :=
          executeCalls_cons_inv rp ex mc rest db entries db' h
        subst hent
        have ihr := ih db1 entriesRest db' hrest
        constructor
        · simp [ihr.1]
        · intro i hi
          cases i with
          | zero =>
              refine ⟨db, mc, ⟨rname, rdata, mc.client_id⟩, by simp, by simp,
                executeCalls_nil rp ex db, rfl, ?_⟩
              rcases hcase with ⟨v, hm, h1, h2⟩ | ⟨t, d, hm, h1, h2⟩
              · exact Or.inl ⟨v, hm, by rw [h1, h2]⟩
              · exact Or.inr ⟨t, d, hm, by rw [h1, h2]⟩
          | succ i =>
              have hi' : i < rest.length := by simp at hi; omega
              obtain ⟨dbi, mc2, e2, hmc, he, htake, hcid, hdich⟩ := ihr.2 i hi'
              refine ⟨dbi, mc2, e2, by simpa using hmc, by simpa using he, ?_,
                hcid, hdich⟩
              rw [List.take_succ_cons]
              rcases hcase with ⟨v, hm, h1, h2⟩ | ⟨t, d, hm, h1, h2⟩
              · subst h1; subst h2
                rw [executeCalls_cons_ok rp ex mc (rest.take i) db _ db1 hm hr,
                  htake]
                simp [List.take_succ_cons, except_map_ok]
              · subst h1; subst h2
                rw [executeCalls_cons_methodError rp ex mc (rest.take i) db t d
                  db1 hm hr, htake]
                simp [List.take_succ_cons, except_map_ok]
  · intro mc rest db t d hhash hm
    have herrh : (Json.str "error").hashable = true := rfl
    have hr : recordResult db mc.client_id (Json.str "error")
        (PyVal.js (methodErrorToJson t d)) = .ok
          (ainsert db mc.client_id
            (ainsert ((alookup db mc.client_id).getD []) (Json.str "error")
              (PyVal.js (methodErrorToJson t d)))) := by
      simp [recordResult, hhash, herrh]
    exact ⟨_, executeCalls_cons_methodError rp ex mc rest db t d _ hm hr⟩

/-- Fixture for the executor witnesses: one module with an echo method
and a method that raises a method-level `invalidArguments` error. -/
def moduleW : Module :=
  ⟨["Core/echo", "Mailbox/bad"], fun s args =>
    if s = "Mailbox/bad" then .error (.methodError "invalidArguments" (some "boom"))
    else .ok (.js args)⟩

def exW : Executor := Executor.ofModules [moduleW]

def rpW : Json → String → Except String Json := fun j _ => .ok j

def callsW : List MethodCall :=
  [⟨.str "Core/echo", .obj [], .str "c1"⟩,
   ⟨.str "Mailbox/bad", .obj [], .str "c2"⟩]

def errJsonW : Json :=
  .obj [("type", .str "invalidArguments"), ("description", .str "boom")]

def entriesW : List ResponseEntry :=
  [⟨.str "Core/echo", .js (.obj []), .str "c1"⟩,
   ⟨.str "error", .js errJsonW, .str "c2"⟩]

def dbW : DB :=
  [(.str "c1", [(.str "Core/echo", .js (.obj []))]),
   (.str "c2", [(.str "error", .js errJsonW)])]

/-- Witness for C1 at a concrete two-call batch whose second call raises
a method-level error. -/
theorem executor_batch_shape_witness :
    entriesW.length = callsW.length
    ∧ ∃ db1, exW.executeCalls rpW (callsW.drop 1) []
        = (exW.executeCalls rpW [] db1).map
            (fun r => (⟨Json.str "error",
              PyVal.js (methodErrorToJson "invalidArguments" (some "boom")),
              Json.str "c2"⟩ :: r.1, r.2)) := by
  have h := executor_batch_shape rpW exW
  have h1 := h.1 callsW [] entriesW dbW (by decide)
  exact ⟨h1.1, h.2 ⟨.str "Mailbox/bad", .obj [], .str "c2"⟩ [] [] "invalidArguments"
    (some "boom") rfl (by decide)⟩

theorem recordResult_ok_inv (db : DB) (cid rname : Json) (rdata : PyVal)
    (db1 : DB) (h : recordResult db cid rname rdata = .ok db1) :
    cid.hashable = true ∧ rname.hashable = true
    ∧ db1 = ainsert db cid (ainsert ((alookup db cid).getD []) rname rdata) := by
  unfold recordResult at h
  by_cases hc : (cid.hashable && rname.hashable) = true
  · rw [if_pos hc] at h
    injection h with h1
    simp only [Bool.and_eq_true] at hc
    exact ⟨hc.1, hc.2, h1.symm⟩
  · rw [if_neg hc] at h
    cases h

theorem executeCalls_append (rp : Json → String → Except String Json)
    (ex : Executor) (xs ys : List MethodCall) (db : DB)
    (es : List ResponseEntry) (db1 : DB)
    (h : ex.executeCalls rp xs db = .ok (es, db1)) :
    ex.executeCalls rp (xs ++ ys) db
      = (ex.executeCalls rp ys db1).map (fun r => (es ++ r.1, r.2)) := by
  induction xs generalizing db es with
  | nil =>
      rw [executeCalls_nil] at h
      injection h with h1
      injection h1 with he hd
      subst hd
      rw [← he]
      cases hys : ex.executeCalls rp ys db with
      | error e => simp [hys, except_map_error]
      | ok p => simp [hys, except_map_ok]
  | cons mc xs ih =>
      obtain ⟨rname, rdata, dbm, esRest, hcase, hr, hrest, hent⟩ :=
        executeCalls_cons_inv rp ex mc xs db es db1 h
      subst hent
      rcases hcase with ⟨v, hm, h1, h2⟩ | ⟨t, d, hm, h1, h2⟩ <;>
        subst h1 <;> subst h2
      · rw [show (mc :: xs) ++ ys = mc :: (xs ++ ys) from rfl,
          executeCalls_cons_ok rp ex mc (xs ++ ys) db _ dbm hm hr,
          ih dbm esRest hrest]
        cases hys : ex.executeCalls rp ys db1 with
        | error e => simp [hys, except_map_error]
        | ok p => simp [hys, except_map_ok]
      · rw [show (mc :: xs) ++ ys = mc :: (xs ++ ys) from rfl,
          executeCalls_cons_methodError rp ex mc (xs ++ ys) db t d dbm hm hr,
          ih dbm esRest hrest]
        cases hys : ex.executeCalls rp ys db1 with
        | error e => simp [hys, except_map_error]
        | ok p => simp [hys, except_map_ok]

theorem executeCalls_db_keys (rp : Json → String → Except String Json)
    (ex : Executor) :
    ∀ (calls : List MethodCall) (db : DB) (es : List ResponseEntry) (db' : DB),
      ex.executeCalls rp calls db = .ok (es, db') →
      ∀ cid ∈ akeys db',
        cid ∈ akeys db ∨ cid ∈ calls.map (fun mc => mc.client_id) := by
  intro calls
  induction calls with
  | nil =>
      intro db es db' h cid hc
      rw [executeCalls_nil] at h
      injection h with h1
      injection h1 with he hd
      rw [← hd] at hc
      exact Or.inl hc
  | cons mc rest ih =>
      intro db es db' h cid hc
      obtain ⟨rname, rdata, db1, esRest, hcase, hr, hrest, hent⟩ :=
        executeCalls_cons_inv rp ex mc rest db es db' h
      have hdb1 := (recordResult_ok_inv db mc.client_id rname rdata db1 hr).2.2
      rcases ih db1 esRest db' hrest cid hc with h2 | h2
      · rw [hdb1] at h2
        rcases mem_akeys_ainsert db mc.client_id _ cid h2 with h3 | h3
        · right; simp [h3]
        · left; exact h3
      · right
        simp only [List.map_cons, List.mem_cons]
        exact Or.inr h2

/-- **C9**: the executor holds no state across batches: `execute` leaves
the executor value (its method registry, the only field) unchanged,
starts every invocation from the empty response table — processing first
the `i` leading calls from `[]` and continuing from the table those
produced — and at any point `i` the response table's client_id keys all
come from the calls of this same batch that precede position `i`, so a
back-reference can only resolve to a response recorded earlier in the
same batch. -/
theorem executor_fresh_per_batch (rp : Json → String → Except String Json)
    (ex : Executor) (req : JMapRequest) (i : Nat)
    (entries : List ResponseEntry) (dbi : DB)
    (h : ex.executeCalls rp (req.method_calls.take i) [] = .ok (entries, dbi)) :
    (ex.execute rp req).2 = ex
    ∧ (ex.execute rp req).1
        = ((ex.executeCalls rp (req.method_calls.drop i) dbi).map
            (fun r => (entries ++ r.1, r.2))).map (fun r => ⟨r.1⟩)
    ∧ ∀ cid ∈ akeys dbi,
        cid ∈ (req.method_calls.take i).map (fun mc => mc.client_id) := by
  refine ⟨rfl, ?_, ?_⟩
  · have happ := executeCalls_append rp ex (req.method_calls.take i)
      (req.method_calls.drop i) [] entries dbi h
    rw [List.take_append_drop] at happ
    simp only [Executor.execute]
    rw [happ]
  · intro cid hc
    rcases executeCalls_db_keys rp ex (req.method_calls.take i) [] entries dbi h
        cid hc with h2 | h2
    · simp [akeys] at h2
    · exact h2

def db1W : DB := [(Json.str "c1", [(Json.str "Core/echo", PyVal.js (Json.obj []))])]

/-- Witness for C9 at the concrete two-call batch, split after the first
call. -/
theorem executor_fresh_per_batch_witness :
    (Executor.execute rpW exW ⟨Json.arr [], callsW⟩).2 = exW
    ∧ ∀ cid ∈ akeys db1W,
        cid ∈ ((⟨Json.arr [], callsW⟩ : JMapRequest).method_calls.take 1).map
          (fun mc => mc.client_id) := by
  have h := executor_fresh_per_batch rpW exW ⟨Json.arr [], callsW⟩ 1
    [⟨.str "Core/echo", .js (.obj []), .str "c1"⟩] db1W (by decide)
  exact ⟨h.1, h.2.2⟩

/-- Shared helper: a completed batch yields one response entry per call. -/
theorem executeCalls_length (rp : Json → String → Except String Json)
    (ex : Executor) :
    ∀ (calls : List MethodCall) (db : DB) (es : List ResponseEntry) (db' : DB),
      ex.executeCalls rp calls db = .ok (es, db') → es.length = calls.length := by
  intro calls
  induction calls with
  | nil =>
      intro db es db' h
      rw [executeCalls_nil] at h
      injection h with h1
      injection h1 with he hd
      rw [← he]
      rfl
  | cons mc rest ih =>
      intro db es db' h
      obtain ⟨rname, rdata, db1, esRest, hcase, hr, hrest, hent⟩ :=
        executeCalls_cons_inv rp ex mc rest db es db' h
      subst hent
      simp [ih db1 esRest db' hrest]

/-- **C10**: after each call completes, the executor stores that call's
response data in the per-batch table keyed by (client_id,
response_name): a successful call under its method name, a call failing
with a method-level error under `'error'` — and such an entry is itself
addressable by a later back-reference, whose two table lookups succeed
(resolution then reaches the serialization step, where the stored plain
error dict raises `AttributeError` at `to_client`).  When two calls
record the same (client_id, response_name) pair, the later call
overwrites the earlier table entry, while the response list keeps a
separate entry for each call. -/
theorem response_table_indexing (rp : Json → String → Except String Json)
    (ex : Executor) :
    (∀ (mc : MethodCall) (rest : List MethodCall) (db : DB) (v : PyVal)
       (db1 : DB),
      ex.execute_method rp mc db = .ok v →
      recordResult db mc.client_id mc.name v = .ok db1 →
      alookup ((alookup db1 mc.client_id).getD []) mc.name = some v
      ∧ ex.executeCalls rp (mc :: rest) db
          = (ex.executeCalls rp rest db1).map
              (fun r => (⟨mc.name, v, mc.client_id⟩ :: r.1, r.2)))
    ∧ (∀ (mc : MethodCall) (rest : List MethodCall) (db : DB) (t : String)
         (d : Option String) (db1 : DB),
      ex.execute_method rp mc db = .error (.methodError t d) →
      recordResult db mc.client_id (Json.str "error")
          (PyVal.js (methodErrorToJson t d)) = .ok db1 →
      alookup ((alookup db1 mc.client_id).getD []) (Json.str "error")
          = some (PyVal.js (methodErrorToJson t d))
      ∧ ex.executeCalls rp (mc :: rest) db
          = (ex.executeCalls rp rest db1).map
              (fun r => (⟨Json.str "error", PyVal.js (methodErrorToJson t d),
                mc.client_id⟩ :: r.1, r.2)))
    ∧ (∀ (mc : MethodCall) (db : DB) (t : String) (d : Option String)
         (db1 : DB) (cs path : String),
      mc.client_id = Json.str cs →
      ex.execute_method rp mc db = .error (.methodError t d) →
      recordResult db mc.client_id (Json.str "error")
          (PyVal.js (methodErrorToJson t d)) = .ok db1 →
      resolve_reference rp ⟨cs, "error", path⟩ db1
        = .error (.attributeError "to_client"))
    ∧ (∀ (db : DB) (cid rname : Json) (v1 v2 : PyVal) (db1 db2 : DB),
      recordResult db cid rname v1 = .ok db1 →
      recordResult db1 cid rname v2 = .ok db2 →
      alookup ((alookup db2 cid).getD []) rname = some v2)
    ∧ (∀ (calls : List MethodCall) (db : DB) (es : List ResponseEntry)
         (db' : DB), ex.executeCalls rp calls db = .ok (es, db') →
        es.length = calls.length) := by
  refine ⟨?_, ?_, ?_, ?_, executeCalls_length rp ex⟩
  · intro mc rest db v db1 hm hr
    obtain ⟨h1, h2, h3⟩ := recordResult_ok_inv db mc.client_id mc.name v db1 hr
    refine ⟨?_, executeCalls_cons_ok rp ex mc rest db v db1 hm hr⟩
    rw [h3, alookup_ainsert_self]
    simp [alookup_ainsert_self]
  · intro mc rest db t d db1 hm hr
    obtain ⟨h1, h2, h3⟩ := recordResult_ok_inv db mc.client_id _ _ db1 hr
    refine ⟨?_, executeCalls_cons_methodError rp ex mc rest db t d db1 hm hr⟩
    rw [h3, alookup_ainsert_self]
    simp [alookup_ainsert_self]
  · intro mc db t d db1 cs path hcs hm hr
    obtain ⟨h1, h2, h3⟩ := recordResult_ok_inv db mc.client_id _ _ db1 hr
    rw [hcs] at h3
    simp only [resolve_reference, h3, alookup_ainsert_self]
    simp [alookup_ainsert_self, PyVal.to_client]
  · intro db cid rname v1 v2 db1 db2 hr1 hr2
    obtain ⟨_, _, h3⟩ := recordResult_ok_inv db1 cid rname v2 db2 hr2
    rw [h3, alookup_ainsert_self]
    simp [alookup_ainsert_self]

/-- Witness for C10 at the concrete two-call batch: the failed second
call is stored under `'error'`, a back-reference to it passes both table
lookups, and a repeated (client_id, name) record keeps the later value. -/
theorem response_table_indexing_witness :
    (alookup ((alookup dbW (Json.str "c2")).getD []) (Json.str "error")
        = some (PyVal.js errJsonW))
    ∧ resolve_reference rpW ⟨"c2", "error", "/x"⟩ dbW
        = .error (.attributeError "to_client")
    ∧ alookup ((alookup (ainsert db1W (Json.str "c1")
          (ainsert ((alookup db1W (Json.str "c1")).getD [])
            (Json.str "Core/echo") (PyVal.js Json.null))) (Json.str "c1")).getD [])
        (Json.str "Core/echo") = some (PyVal.js Json.null) := by
  have h := response_table_indexing rpW exW
  refine ⟨?_, ?_, ?_⟩
  · exact (h.2.1 ⟨.str "Mailbox/bad", .obj [], .str "c2"⟩ [] db1W
      "invalidArguments" (some "boom") dbW (by decide) (by decide)).1
  · exact h.2.2.1 ⟨.str "Mailbox/bad", .obj [], .str "c2"⟩ db1W
      "invalidArguments" (some "boom") dbW "c2" "/x" rfl (by decide) (by decide)
  · exact h.2.2.2.1 db1W (Json.str "c1") (Json.str "Core/echo")
      (PyVal.js (Json.obj [])) (PyVal.js Json.null) db1W
      [(Json.str "c1", [(Json.str "Core/echo", PyVal.js Json.null)])]
      (by decide) (by decide)

theorem strList_map_str (names : List String) :
    strList (names.map Json.str) = .ok names := by
  induction names with
  | nil => rfl
  | cons n ns ih => simp [strList, ih, except_map_ok]

theorem joinStrings_map_str (names : List String) :
    joinStrings (names.map Json.str) = .ok (String.intercalate ", " names) := by
  simp [joinStrings, strList_map_str, except_map_ok]

theorem processRefArgs_no_refs (rp : Json → String → Except String Json)
    (db : DB) :
    ∀ (ks : List String) (args : List (String × Json)),
      (∀ k ∈ ks, startsWithHash k = false) →
      processRefArgs rp db ks args = .ok args := by
  intro ks
  induction ks with
  | nil => intro args _; rfl
  | cons k rest ih =>
      intro args h
      have hk : startsWithHash k = false := h k (List.mem_cons_self k rest)
      simp only [processRefArgs, hk, Bool.false_eq_true, if_false]
      exact ih args (fun k' hk' => h k' (List.mem_cons_of_mem k hk'))

theorem processRefArgs_one_ref (rp : Json → String → Except String Json)
    (db : DB) (ks1 ks2 : List String) (k : String)
    (h1 : ∀ k' ∈ ks1, startsWithHash k' = false)
    (h2 : ∀ k' ∈ ks2, startsWithHash k' = false)
    (hk : startsWithHash k = true) :
    ∀ (args : List (String × Json)) (rv : Json),
      alookup args k = some rv →
      processRefArgs rp db (ks1 ++ k :: ks2) args
        = match ResultReference.from_client rv with
          | .error msg => .error (.requestError "notRequest" (some msg))
          | .ok ref =>
              match resolve_reference rp ref db with
              | .error e => .error e
              | .ok nv => .ok (aerase (ainsert args (k.drop 1) nv) k) := by
  induction ks1 with
  | nil =>
      intro args rv hlook
      simp only [List.nil_append, processRefArgs, hk, if_true, hlook]
      cases href : ResultReference.from_client rv with
      | error msg => simp [href]
      | ok ref =>
          simp only [href]
          cases hres : resolve_reference rp ref db with
          | error e => simp [hres]
          | ok nv =>
              simp only [hres]
              exact processRefArgs_no_refs rp db ks2
                (aerase (ainsert args (k.drop 1) nv) k) h2
  | cons k1 ks1 ih =>
      intro args rv hlook
      have hk1 : startsWithHash k1 = false := h1 k1 (List.mem_cons_self k1 ks1)
      simp only [List.cons_append, processRefArgs, hk1, Bool.false_eq_true,
        if_false]
      exact ih (fun k' hk' => h1 k' (List.mem_cons_of_mem k1 hk')) args rv hlook

/-- **C2**: back-reference handling.  A `ResultReference` whose
`result_of` is absent from the batch's response table, or whose `name`
is absent among that client_id's recorded responses (the error then
enumerating the actually-recorded response names), or whose path pointer
fails to resolve, produces a method-level `invalidResultReference`
error, which `execute_method` surfaces for the call; on successful
resolution the argument map passed to the module binds the unprefixed
key to the resolved value and no longer contains the `#`-prefixed key. -/
theorem back_reference_resolution (rp : Json → String → Except String Json) :
    (∀ (ref : ResultReference) (db : DB),
      alookup db (Json.str ref.result_of) = none →
      resolve_reference rp ref db = .error (.methodError "invalidResultReference"
        (some ("Not found a previous method call with id " ++ ref.result_of))))
    ∧ (∀ (ref : ResultReference) (db : DB) (responses : List (Json × PyVal))
         (names : List String),
      alookup db (Json.str ref.result_of) = some responses →
      alookup responses (Json.str ref.name) = none →
      akeys responses = names.map Json.str →
      resolve_reference rp ref db = .error (.methodError "invalidResultReference"
        (some ("Previous method call with id \"" ++ ref.result_of ++
          "\" has no response named \"" ++ ref.name ++
          "\", possible names are: " ++ String.intercalate ", " names))))
    ∧ (∀ (ref : ResultReference) (db : DB) (responses : List (Json × PyVal))
         (response : PyVal) (cj : Json) (msg : String),
      alookup db (Json.str ref.result_of) = some responses →
      alookup responses (Json.str ref.name) = some response →
      response.to_client = .ok cj →
      rp cj ref.path = .error msg →
      resolve_reference rp ref db
        = .error (.methodError "invalidResultReference" (some msg)))
    ∧ (∀ (ex : Executor) (mc : MethodCall) (db : DB) (s : String) (m : Module)
         (kvs : List (String × Json)) (e : PyErr),
      mc.name = .str s →
      alookup ex.available_methods s = some m →
      mc.args = .obj kvs →
      processRefArgs rp db (akeys kvs) kvs = .error e →
      ex.execute_method rp mc db = .error e)
    ∧ (∀ (ex : Executor) (mc : MethodCall) (db : DB) (s : String) (m : Module)
         (kvs : List (String × Json)) (ks1 ks2 : List String) (k : String)
         (rv : Json) (ref : ResultReference) (nv : Json),
      mc.name = .str s →
      alookup ex.available_methods s = some m →
      mc.args = .obj kvs →
      (akeys kvs).Nodup →
      akeys kvs = ks1 ++ k :: ks2 →
      (∀ k' ∈ ks1, startsWithHash k' = false) →
      (∀ k' ∈ ks2, startsWithHash k' = false) →
      startsWithHash k = true →
      k.drop 1 ≠ k →
      alookup kvs k = some rv →
      ResultReference.from_client rv = .ok ref →
      resolve_reference rp ref db = .ok nv →
      alookup (aerase (ainsert kvs (k.drop 1) nv) k) (k.drop 1) = some nv
      ∧ acontains (aerase (ainsert kvs (k.drop 1) nv) k) k = false
      ∧ ex.execute_method rp mc db
          = (match m.run s (Json.obj (aerase (ainsert kvs (k.drop 1) nv) k)) with
             | .error .notImplemented => .error (.methodError "unknownMethod"
                 (some "This method is not implemented."))
             | r => r)) := by
  refine ⟨?_, ?_, ?_, ?_, ?_⟩
  · intro ref db h
    simp [resolve_reference, h]
  · intro ref db responses names h1 h2 h3
    simp [resolve_reference, h1, h2, h3, joinStrings_map_str]
  · intro ref db responses response cj msg h1 h2 h3 h4
    simp [resolve_reference, h1, h2, h3, h4]
  · intro ex mc db s m kvs e hname hm hargs hproc
    simp [Executor.execute_method, hname, hargs, hm, hproc, except_map_error,
      Json.hashable]
  · intro ex mc db s m kvs ks1 ks2 k rv ref nv hname hm hargs hnd hsplit hks1
      hks2 hk hkd hlook href hres
    have hproc := processRefArgs_one_ref rp db ks1 ks2 k hks1 hks2 hk kvs rv hlook
    simp only [href, hres] at hproc
    refine ⟨?_, ?_, ?_⟩
    · rw [alookup_aerase_ne _ _ _ (fun he => hkd he.symm)]
      exact alookup_ainsert_self kvs (k.drop 1) nv
    · have hnone : alookup (aerase (ainsert kvs (k.drop 1) nv) k) k = none := by
        apply alookup_aerase_self
        exact akeys_ainsert_nodup kvs (k.drop 1) nv hnd
      simp [acontains, hnone]
    · rw [← hsplit] at hproc
      simp [Executor.execute_method, hname, hargs, hm, hproc, except_map_ok,
        Json.hashable]

def dbM : DB :=
  [(Json.str "c1",
    [(Json.str "A/get", PyVal.mdl (Json.obj [("ids", Json.arr [Json.str "id1"])]))])]

def refJsonW : Json :=
  Json.obj [("resultOf", Json.str "c1"), ("name", Json.str "A/get"),
    ("path", Json.str "/ids")]

def mcRefW : MethodCall := ⟨.str "Core/echo", .obj [("#ids", refJsonW)], .str "c2"⟩

/-- Witness for C2: a dangling `result_of` yields the
`invalidResultReference` error, and a resolvable reference rebinds the
unprefixed key and drops the prefixed one. -/
theorem back_reference_resolution_witness :
    resolve_reference rpW ⟨"zz", "x", "/p"⟩ dbM
      = .error (.methodError "invalidResultReference"
          (some "Not found a previous method call with id zz"))
    ∧ alookup (aerase (ainsert [("#ids", refJsonW)] ("#ids".drop 1)
          (Json.obj [("ids", Json.arr [Json.str "id1"])])) "#ids") ("#ids".drop 1)
        = some (Json.obj [("ids", Json.arr [Json.str "id1"])])
    ∧ acontains (aerase (ainsert [("#ids", refJsonW)] ("#ids".drop 1)
          (Json.obj [("ids", Json.arr [Json.str "id1"])])) "#ids") "#ids"
        = false := by
  have h := back_reference_resolution rpW
  refine ⟨h.1 ⟨"zz", "x", "/p"⟩ dbM (by decide), ?_, ?_⟩
  all_goals
    have h5 := h.2.2.2.2 exW mcRefW dbM "Core/echo" moduleW [("#ids", refJsonW)]
      [] [] "#ids" refJsonW ⟨"c1", "A/get", "/ids"⟩
      (Json.obj [("ids", Json.arr [Json.str "id1"])])
      rfl rfl rfl (by decide) rfl (by simp) (by simp) (by decide) (by decide)
      (by decide) (by decide) (by decide)
  · exact h5.1
  · exact h5.2.1

/-- Counterexample to C4: with no module registering `Foo/get`, the
executor does not record a method-level `unknownMethod` error response —
`execute_method` raises the local `MethodNotFound` (a `JMapError` that is
not a `JMapMethodError`), `execute`'s `except JMapMethodError` does not
catch it, and the batch aborts with that exception instead of returning
a response list. -/
theorem unregistered_method_counterexample :
    (Executor.execute rpW (Executor.mk [])
        ⟨Json.arr [], [⟨.str "Foo/get", .obj [], .str "c1"⟩]⟩).1
      = .error (.methodNotFound (.str "Foo/get")) := by decide

/-- **C4 (amended)**: a method call whose name is registered by no module
makes `execute_method` raise `MethodNotFound`, which is not a
`JMapMethodError` and therefore aborts the whole batch with that
exception — no error entry is recorded and the remaining calls never
run.  The method-level `unknownMethod` error is recorded (and the batch
continues) only when a registered module raises `NotImplementedError`
for the call. -/
theorem unregistered_method_aborts_batch
    (rp : Json → String → Except String Json) (ex : Executor) :
    (∀ (mc : MethodCall) (rest : List MethodCall) (db : DB) (s : String),
      mc.name = .str s →
      alookup ex.available_methods s = none →
      ex.execute_method rp mc db = .error (.methodNotFound mc.name)
      ∧ ex.executeCalls rp (mc :: rest) db = .error (.methodNotFound mc.name))
    ∧ (∀ (mc : MethodCall) (rest : List MethodCall) (db : DB) (s : String)
         (m : Module) (kvs : List (String × Json)),
      mc.name = .str s →
      alookup ex.available_methods s = some m →
      mc.args = .obj kvs →
      (∀ k ∈ akeys kvs, startsWithHash k = false) →
      m.run s (Json.obj kvs) = .error .notImplemented →
      mc.client_id.hashable = true →
      ex.execute_method rp mc db = .error (.methodError "unknownMethod"
          (some "This method is not implemented."))
      ∧ ∃ db1, ex.executeCalls rp (mc :: rest) db
          = (ex.executeCalls rp rest db1).map
              (fun r => (⟨Json.str "error",
                PyVal.js (methodErrorToJson "unknownMethod"
                  (some "This method is not implemented.")),
                mc.client_id⟩ :: r.1, r.2))) := by
  constructor
  · intro mc rest db s hname hno
    have hm : ex.execute_method rp mc db = .error (.methodNotFound mc.name) := by
      simp [Executor.execute_method, hname, hno, Json.hashable]
    refine ⟨hm, executeCalls_cons_fatal rp ex mc rest db _ hm ?_⟩
    intro t d hcontra
    cases hcontra
  · intro mc rest db s m kvs hname hfound hargs hnorefs hrun hhash
    have hproc : processRefArgs rp db (akeys kvs) kvs = .ok kvs :=
      processRefArgs_no_refs rp db (akeys kvs) kvs hnorefs
    have hm : ex.execute_method rp mc db = .error (.methodError "unknownMethod"
        (some "This method is not implemented.")) := by
      simp [Executor.execute_method, hname, hfound, hargs, hproc, except_map_ok,
        Json.hashable, hrun]
    have herrh : (Json.str "error").hashable = true := rfl
    have hr : recordResult db mc.client_id (Json.str "error")
        (PyVal.js (methodErrorToJson "unknownMethod"
          (some "This method is not implemented."))) = .ok
          (ainsert db mc.client_id
            (ainsert ((alookup db mc.client_id).getD []) (Json.str "error")
              (PyVal.js (methodErrorToJson "unknownMethod"
                (some "This method is not implemented."))))) := by
      simp [recordResult, hhash, herrh]
    exact ⟨hm, _, executeCalls_cons_methodError rp ex mc rest db "unknownMethod"
      (some "This method is not implemented.") _ hm hr⟩

/-- Fixture: a module whose handler raises `NotImplementedError`. -/
def moduleNI : Module := ⟨["Thread/changes"], fun _ _ => .error .notImplemented⟩

def exNI : Executor := Executor.ofModules [moduleNI]

/-- Witness for the amended C4 at concrete calls. -/
theorem unregistered_method_aborts_batch_witness :
    (Executor.execute_method rpW exW ⟨.str "Nope", .obj [], .str "c"⟩ []
        = .error (.methodNotFound (.str "Nope")))
    ∧ Executor.execute_method rpW exNI
        ⟨.str "Thread/changes", .obj [], .str "c"⟩ []
        = .error (.methodError "unknownMethod"
            (some "This method is not implemented.")) := by
  have h1 := (unregistered_method_aborts_batch rpW exW).1
    ⟨.str "Nope", .obj [], .str "c"⟩ [] [] "Nope" rfl rfl
  have h2 := (unregistered_method_aborts_batch rpW exNI).2
    ⟨.str "Thread/changes", .obj [], .str "c"⟩ [] [] "Thread/changes" moduleNI
    [] rfl rfl rfl (by simp [akeys]) rfl rfl
  exact ⟨h1.1, h2.1⟩

/-! ### The standard base module (jmap/modules/core.py, JmapBaseModule)

A registered handler is modelled by its declared argument type and its
body.  The runtime `inspect.getfullargspec` checks only reject
mis-declared handlers (a `TypeError` for the developer); handlers here
are well-formed by construction.  The `context` argument is threaded
through unchanged and is omitted.  `typed` carries the marshallable
argument class's `from_client`, whose `Except.error` case is the raw
marshmallow `ValidationError` with its message. -/

inductive HandlerArg where
  | anyType
  | typed (from_client : Json → Except String Json)

structure Handler where
  arg : HandlerArg
  run : Json → Except PyErr PyVal

/-- `JmapBaseModule.execute` (jmap/modules/core.py lines 48-77): look up
the handler (`KeyError` if absent); pass the input through raw for the
`Any` sentinel or a non-dict input; otherwise unmarshal via
`from_client`, re-raising a `ValidationError` as the method-level
`invalidArguments` error with the original message. -/
def JmapBaseModule_execute (methods : List (String × Handler))
    (method_name : String) (input : Json) : Except PyErr PyVal :=
  match alookup methods method_name with
  | none => .error (.keyError method_name)
  | some h =>
      match h.arg with
      | .anyType => h.run input
      | .typed fc =>
          match input with
          | .obj kvs =>
              match fc (.obj kvs) with
              | .error msg => .error (.methodError "invalidArguments" (some msg))
              | .ok a => h.run a
          | other => h.run other

/-- **C3**: for a handler declaring a non-sentinel argument type, a
validation error raised while unmarshaling dict arguments is caught at
the dispatch boundary and re-raised as a method-level `invalidArguments`
error whose description is the original validation message; on success
the handler runs on the converted arguments; and the raw validation
exception itself never escapes `execute` (assuming the handler body does
not itself raise one). -/
theorem base_module_wraps_validation_errors :
    (∀ (methods : List (String × Handler)) (name : String) (h : Handler)
       (fc : Json → Except String Json) (kvs : List (String × Json))
       (msg : String),
      alookup methods name = some h →
      h.arg = .typed fc →
      fc (.obj kvs) = .error msg →
      JmapBaseModule_execute methods name (.obj kvs)
        = .error (.methodError "invalidArguments" (some msg)))
    ∧ (∀ (methods : List (String × Handler)) (name : String) (h : Handler)
         (fc : Json → Except String Json) (kvs : List (String × Json))
         (a : Json),
      alookup methods name = some h →
      h.arg = .typed fc →
      fc (.obj kvs) = .ok a →
      JmapBaseModule_execute methods name (.obj kvs) = h.run a)
    ∧ (∀ (methods : List (String × Handler)) (name : String) (h : Handler)
         (fc : Json → Except String Json) (kvs : List (String × Json)),
      alookup methods name = some h →
      h.arg = .typed fc →
      (∀ (c : Json) (msg2 : String), h.run c ≠ .error (.validationError msg2)) →
      ∀ msg2 : String, JmapBaseModule_execute methods name (.obj kvs)
          ≠ .error (.validationError msg2)) := by
  refine ⟨?_, ?_, ?_⟩
  · intro methods name h fc kvs msg hlook harg hfc
    simp [JmapBaseModule_execute, hlook, harg, hfc]
  · intro methods name h fc kvs a hlook harg hfc
    simp [JmapBaseModule_execute, hlook, harg, hfc]
  · intro methods name h fc kvs hlook harg hrun msg2
    cases hfc : fc (.obj kvs) with
    | error msg => simp [JmapBaseModule_execute, hlook, harg, hfc]
    | ok a =>
        simp only [JmapBaseModule_execute, hlook, harg, hfc]
        exact hrun a msg2

/-- Fixture handler for the C3 witness: accepts only the empty object. -/
def handlerW : Handler :=
  ⟨.typed (fun j =>
      match j with
      | .obj [] => .ok j
      | _ => .error "Unknown field."),
    fun a => .ok (.js a)⟩

/-- Witness for C3 at a concrete handler and inputs. -/
theorem base_module_wraps_validation_errors_witness :
    JmapBaseModule_execute [("M/get", handlerW)] "M/get"
        (.obj [("x", Json.null)])
      = .error (.methodError "invalidArguments" (some "Unknown field."))
    ∧ JmapBaseModule_execute [("M/get", handlerW)] "M/get" (.obj [])
      = handlerW.run (.obj []) := by
  have h := base_module_wraps_validation_errors
  exact ⟨h.1 [("M/get", handlerW)] "M/get" handlerW _ [("x", Json.null)]
      "Unknown field." rfl rfl rfl,
    h.2.1 [("M/get", handlerW)] "M/get" handlerW _ [] (.obj []) rfl rfl rfl⟩

/-! ### Request parsing (jmap/protocol/models.py lines 738-773) -/

/-- The Python type name of a value (for `TypeError` messages). -/
def Json.typeName : Json → String
  | .null => "NoneType"
  | .bool _ => "bool"
  | .num _ => "int"
  | .str _ => "str"
  | .arr _ => "list"
  | .obj _ => "dict"

/-- Python iteration over a parsed JSON value: lists yield their
elements, strings their single-character substrings, dicts their keys;
anything else raises `TypeError`. -/
def jIter : Json → Except PyErr (List Json)
  | .arr xs => .ok xs
  | .str s => .ok (s.data.map (fun c => Json.str (String.mk [c])))
  | .obj kvs => .ok (kvs.map (fun kv => Json.str kv.1))
  | j => .error (.typeError ("'" ++ j.typeName ++ "' object is not iterable"))

/-- `method_name, args, client_id = call`: Python unpacking — iterate,
then require exactly three items (`ValueError` otherwise; a non-iterable
raises `TypeError`). -/
def unpack3 (call : Json) : Except PyErr (Json × Json × Json) :=
  match jIter call with
  | .error e => .error e
  | .ok [a, b, c] => .ok (a, b, c)
  | .ok _ => .error (.valueError "unpack")

/-- The loop body of `parse_methods` (models.py lines 765-773): only a
`ValueError` from the unpacking is converted to `JMapNotRequest()`
(whose `detail` is `None`). -/
def parseCallsList : List Json → Except PyErr (List MethodCall)
  | [] => .ok []
  | call :: rest =>
      match unpack3 call with
      | .error (.valueError _) => .error (.requestError "notRequest" none)
      | .error e => .error e
      | .ok (n, a, c) => (parseCallsList rest).map (fun ms => ⟨n, a, c⟩ :: ms)

/-- `parse_methods(data)`: `data` may be `None` (a dict without
`methodCalls`), which fails the `for` with `TypeError`. -/
def parse_methods (data : Option Json) : Except PyErr (List MethodCall) :=
  match data with
  | none => .error (.typeError "'NoneType' object is not iterable")
  | some d =>
      match jIter d with
      | .error e => .error e
      | .ok calls => parseCallsList calls

/-- `JMapRequest.from_json` (models.py lines 743-762). -/
def JMapRequest.from_json (data : Json) : Except PyErr JMapRequest :=
  match data with
  | .arr xs => (parse_methods (some (.arr xs))).map (fun ms => ⟨Json.arr [], ms⟩)
  | .obj kvs =>
      (parse_methods (alookup kvs "methodCalls")).map
        (fun ms => ⟨(alookup kvs "using").getD (Json.arr []), ms⟩)
  | other => .error (.valueError ("Invalid request: " ++ other.pyStr))

/-- Counterexample to C8: the top-level value `42` matches neither
accepted shape, yet `from_json` raises a plain `ValueError` — not the
request-level `notRequest` error the claim requires (and nothing
upstream converts a `ValueError` into one). -/
theorem from_json_counterexample :
    JMapRequest.from_json (Json.num 42)
      = .error (.valueError "Invalid request: 42") := by decide

theorem parseCallsList_triples (triples : List (Json × Json × Json)) :
    parseCallsList (triples.map (fun t => Json.arr [t.1, t.2.1, t.2.2]))
      = .ok (triples.map (fun t => (⟨t.1, t.2.1, t.2.2⟩ : MethodCall))) := by
  induction triples with
  | nil => rfl
  | cons t ts ih => simp [parseCallsList, unpack3, jIter, ih, except_map_ok]

/-- **C8 (amended)**: parsing accepts a bare list whose items unpack
into three parts and an object whose `methodCalls` is such a list (with
`using` taken as given, `[]` when absent); a list item of the wrong
length is rejected with the request-level `notRequest` error; but a
top-level value that is neither a list nor an object raises a plain
`ValueError` (not `notRequest`, and nothing converts it into one), and
an object lacking `methodCalls` raises an uncaught `TypeError`. -/
theorem from_json_shapes :
    (∀ triples : List (Json × Json × Json),
      JMapRequest.from_json
          (.arr (triples.map (fun t => Json.arr [t.1, t.2.1, t.2.2])))
        = .ok ⟨Json.arr [],
            triples.map (fun t => (⟨t.1, t.2.1, t.2.2⟩ : MethodCall))⟩)
    ∧ (∀ (kvs : List (String × Json)) (triples : List (Json × Json × Json)),
      alookup kvs "methodCalls"
          = some (.arr (triples.map (fun t => Json.arr [t.1, t.2.1, t.2.2]))) →
      JMapRequest.from_json (.obj kvs)
        = .ok ⟨(alookup kvs "using").getD (Json.arr []),
            triples.map (fun t => (⟨t.1, t.2.1, t.2.2⟩ : MethodCall))⟩)
    ∧ (∀ (lst : List Json) (rest : List Json), lst.length ≠ 3 →
      JMapRequest.from_json (.arr (Json.arr lst :: rest))
        = .error (.requestError "notRequest" none))
    ∧ (∀ j : Json, (∀ xs, j ≠ .arr xs) → (∀ kvs, j ≠ .obj kvs) →
      JMapRequest.from_json j
        = .error (.valueError ("Invalid request: " ++ j.pyStr)))
    ∧ (∀ kvs : List (String × Json), alookup kvs "methodCalls" = none →
      JMapRequest.from_json (.obj kvs)
        = .error (.typeError "'NoneType' object is not iterable")) := by
  refine ⟨?_, ?_, ?_, ?_, ?_⟩
  · intro triples
    simp [JMapRequest.from_json, parse_methods, jIter,
      parseCallsList_triples triples, except_map_ok]
  · intro kvs triples hmc
    simp [JMapRequest.from_json, parse_methods, hmc, jIter,
      parseCallsList_triples triples, except_map_ok]
  · intro lst rest hlen
    have hun : unpack3 (Json.arr lst) = .error (.valueError "unpack") := by
      simp only [unpack3, jIter]
      match lst, hlen with
      | [], _ => rfl
      | [a], _ => rfl
      | [a, b], _ => rfl
      | [a, b, c], h => exact absurd rfl h
      | a :: b :: c :: d :: es, _ => rfl
    simp [JMapRequest.from_json, parse_methods, jIter, parseCallsList, hun,
      except_map_error]
  · intro j hna hno
    cases j with
    | arr xs => exact absurd rfl (hna xs)
    | obj kvs => exact absurd rfl (hno kvs)
    | null => rfl
    | bool b => rfl
    | num n => rfl
    | str s => rfl
  · intro kvs hmc
    simp [JMapRequest.from_json, parse_methods, hmc, except_map_error]

/-- Witness for the amended C8 at concrete requests. -/
theorem from_json_shapes_witness :
    JMapRequest.from_json
        (.obj [("using", Json.arr [Json.str "urn:ietf:params:jmap:mail"]),
               ("methodCalls",
                Json.arr [Json.arr [Json.str "Core/echo", Json.obj [],
                  Json.str "c1"]])])
      = .ok ⟨Json.arr [Json.str "urn:ietf:params:jmap:mail"],
          [⟨Json.str "Core/echo", Json.obj [], Json.str "c1"⟩]⟩
    ∧ JMapRequest.from_json (.arr [Json.arr [Json.str "a", Json.null]])
      = .error (.requestError "notRequest" none)
    ∧ JMapRequest.from_json Json.null
      = .error (.valueError "Invalid request: None")
    ∧ JMapRequest.from_json (.obj [("x", Json.null)])
      = .error (.typeError "'NoneType' object is not iterable") := by
  have h := from_json_shapes
  refine ⟨?_, ?_, ?_, ?_⟩
  · exact h.2.1 [("using", Json.arr [Json.str "urn:ietf:params:jmap:mail"]),
      ("methodCalls", Json.arr [Json.arr [Json.str "Core/echo", Json.obj [],
        Json.str "c1"]])]
      [(Json.str "Core/echo", Json.obj [], Json.str "c1")] (by decide)
  · exact h.2.2.1 [Json.str "a", Json.null] [] (by decide)
  · exact h.2.2.2.1 Json.null (fun xs => by simp) (fun kvs => by simp)
  · exact h.2.2.2.2 [("x", Json.null)] (by decide)

end JmapPython
